import Mathlib

/-!
Verification development for the `atjs` TSCH joining-phase simulator.

The Lean definitions in this file are shallow embeddings of the Python source
under `src/`:
- `ieee802154/tsch/timeslot_template.py` (TimeslotTemplate construction),
- `ieee802154/tsch/joining_phase_simulator.py` (allocators, sensing, driver),
- `ieee802154/node_group.py` (MAC address assignment).

Durations are modelled as integer nanoseconds, matching `pandas.Timedelta`
which stores integer nanoseconds internally; timeslot attributes are given in
microseconds and converted by a factor of 1000 exactly as
`Timedelta(x, unit="us")` does.  Quantities that the Python code draws from
its pseudo-random generators (shadowing, clock drift, `randint` results) are
modelled as oracle parameters: a run of the Python code corresponds to one
concrete choice of the oracles, and the random sources themselves are
modelled as streams of draw outcomes.
-/

namespace ATJS

/-! ## TimeslotTemplate (`ieee802154/tsch/timeslot_template.py`)

The constructor receives twelve attribute values in microseconds.  Python
checks that each is an `int` in [0, 65535], converts each to a `Timedelta`
(integer nanoseconds, factor 1000) and then rejects the template unless the
timing conditions of lines 53-65 hold.  `Timedelta / 2` is exact here because
every converted value is a multiple of 1000 ns.
-/

structure TimeslotAttrs where
  ccaOffset : ℤ
  cca : ℤ
  rxTx : ℤ
  txOffset : ℤ
  rxOffset : ℤ
  rxWait : ℤ
  rxAckDelay : ℤ
  txAckDelay : ℤ
  ackWait : ℤ
  maxAck : ℤ
  maxTx : ℤ
  timeslotLength : ℤ
  deriving Repr, DecidableEq

/-- Conversion of a microsecond attribute to nanoseconds, mirroring
`Timedelta(attributes[...], unit="us")`. -/
def nsOf (x : ℤ) : ℤ := 1000 * x

/-- Range check of the constructor loop (lines 48-51): every attribute must
lie in [0, 65535]. -/
def ttRangeOk (a : TimeslotAttrs) : Prop :=
  (0 ≤ a.ccaOffset ∧ a.ccaOffset ≤ 65535) ∧
  (0 ≤ a.cca ∧ a.cca ≤ 65535) ∧
  (0 ≤ a.rxTx ∧ a.rxTx ≤ 65535) ∧
  (0 ≤ a.txOffset ∧ a.txOffset ≤ 65535) ∧
  (0 ≤ a.rxOffset ∧ a.rxOffset ≤ 65535) ∧
  (0 ≤ a.rxWait ∧ a.rxWait ≤ 65535) ∧
  (0 ≤ a.rxAckDelay ∧ a.rxAckDelay ≤ 65535) ∧
  (0 ≤ a.txAckDelay ∧ a.txAckDelay ≤ 65535) ∧
  (0 ≤ a.ackWait ∧ a.ackWait ≤ 65535) ∧
  (0 ≤ a.maxAck ∧ a.maxAck ≤ 65535) ∧
  (0 ≤ a.maxTx ∧ a.maxTx ≤ 65535) ∧
  (0 ≤ a.timeslotLength ∧ a.timeslotLength ≤ 65535)

instance (a : TimeslotAttrs) : Decidable (ttRangeOk a) := by
  unfold ttRangeOk; infer_instance

/-- The disjunction of lines 53-65 of `timeslot_template.py`, over the
nanosecond values; construction raises `NotValidTimeslotTemplateError` when it
holds.  `mac_ts_rx_wait / 2` is `500 * rxWait` in nanoseconds. -/
def ttInvariantFail (a : TimeslotAttrs) : Prop :=
  nsOf a.txOffset ≠ nsOf a.ccaOffset + nsOf a.cca + nsOf a.rxTx ∨
  nsOf a.txOffset ≠ nsOf a.rxOffset + 500 * a.rxWait ∨
  nsOf a.rxAckDelay > nsOf a.txAckDelay ∨
  nsOf a.rxAckDelay + nsOf a.ackWait ≤ nsOf a.txAckDelay ∨
  nsOf a.txOffset + nsOf a.maxTx + nsOf a.rxAckDelay + nsOf a.ackWait >
    nsOf a.timeslotLength ∨
  nsOf a.txOffset + nsOf a.maxTx + nsOf a.txAckDelay + nsOf a.maxAck >
    nsOf a.timeslotLength ∨
  nsOf a.rxOffset + nsOf a.rxWait + nsOf a.maxTx + nsOf a.txAckDelay + nsOf a.maxAck >
    nsOf a.timeslotLength + nsOf a.ccaOffset ∨
  500 * a.rxWait > nsOf a.rxOffset + nsOf a.timeslotLength - nsOf a.txOffset -
    nsOf a.maxTx - nsOf a.txAckDelay - nsOf a.maxAck

instance (a : TimeslotAttrs) : Decidable (ttInvariantFail a) := by
  unfold ttInvariantFail; infer_instance

/-- Embedding of `TimeslotTemplate.__init__` applied to a dictionary holding
exactly the twelve integer attributes: construction succeeds iff the range
check passes and the invariant disjunction of lines 53-65 does not fire. -/
def mkTimeslotTemplate (a : TimeslotAttrs) : Bool :=
  decide (ttRangeOk a) && !(decide (ttInvariantFail a))

/-- The seven timing invariants exactly as the specification states them, in
microseconds with the halved `rxWait` written as a rational division. -/
def ttSpecInvariants (a : TimeslotAttrs) : Prop :=
  ((a.txOffset : ℚ) = a.ccaOffset + a.cca + a.rxTx) ∧
  ((a.txOffset : ℚ) = a.rxOffset + a.rxWait / 2) ∧
  ((a.rxAckDelay : ℚ) ≤ a.txAckDelay ∧ (a.txAckDelay : ℚ) < a.rxAckDelay + a.ackWait) ∧
  ((a.txOffset : ℚ) + a.maxTx + a.rxAckDelay + a.ackWait ≤ a.timeslotLength) ∧
  ((a.txOffset : ℚ) + a.maxTx + a.txAckDelay + a.maxAck ≤ a.timeslotLength) ∧
  ((a.rxOffset : ℚ) + a.rxWait + a.maxTx + a.txAckDelay + a.maxAck ≤
    a.timeslotLength + a.ccaOffset) ∧
  ((a.rxWait : ℚ) / 2 ≤ a.rxOffset + a.timeslotLength - a.txOffset -
    a.maxTx - a.txAckDelay - a.maxAck)

instance (a : TimeslotAttrs) : Decidable (ttSpecInvariants a) := by
  unfold ttSpecInvariants; infer_instance

/-- The default 2.45 GHz band template defined at the bottom of
`timeslot_template.py`. -/
def defaultTemplate2450 : TimeslotAttrs :=
  { ccaOffset := 1800, cca := 128, rxTx := 192, txOffset := 2120,
    rxOffset := 1020, rxWait := 2200, rxAckDelay := 800, txAckDelay := 1000,
    ackWait := 400, maxAck := 2400, maxTx := 4256, timeslotLength := 10000 }

/-! ## SAX hash (`JoiningPhaseSimulator.__mbas_allocate_adv_cell`, lines 593-619)

The inner function `sax` iterates over `netaddr.EUI(mac_addr).words`.  For the
48-bit MAC strings assigned by `NodeGroup.___assign_mac_addr` (format
`xx-xx-xx-xx-xx-xx`), `netaddr` uses the EUI-48 dialect whose words are the
six 8-bit octets.  Each word `w` is then split by `divmod(w, 0x100)` into the
byte pair `(w / 256, w % 256)`, which for an octet is `(0, w)`.
-/

/-- One SAX byte update: `h ^= (h << 5) + (h >> 2) + byte`. -/
def saxByteUpd (h b : ℕ) : ℕ := Nat.xor h (h * 32 + h / 4 + b)

/-- The fold of `sax` over a list of words, each word contributing the two
bytes `divmod(word, 0x100)` in order, followed by the final `& 0xFFFF`. -/
def sax (words : List ℕ) : ℕ :=
  (words.foldl (fun h w => saxByteUpd (saxByteUpd h (w / 256)) (w % 256)) 0) % 65536

/-- Grouping of an octet list into 16-bit words (high octet first).  The
specification describes the SAX input as the 16-bit words of the address;
`specSax16` below is the hash under that reading, to be compared with the
hash the code actually computes on the 8-bit `netaddr` words. -/
def toWords16 : List ℕ → List ℕ
  | a :: b :: rest => (a * 256 + b) :: toWords16 rest
  | _ => []

/-- The SAX hash as the specification words describe it: iterate over the
16-bit words of the address, processing the two bytes of each word. -/
def specSax16 (octets : List ℕ) : ℕ := sax (toWords16 octets)

/-- The MAC address octets assigned by `NodeGroup.___assign_mac_addr`: fixed
prefix bytes 00-8c-fa followed by three random bytes. -/
def macOctets (b3 b4 b5 : ℕ) : List ℕ := [0x00, 0x8c, 0xfa, b3 % 256, b4 % 256, b5 % 256]

/-- The SAX regression anchor MAC 00-8c-fa-12-34-56 as its octet list. -/
def anchorMac : List ℕ := macOctets 0x12 0x34 0x56

/-- The cell computed by `__mbas_allocate_adv_cell`: `num_avail_ch_offsets` is
`num_channels` (base) or `num_channels - 1` (enhanced); the advertisement cell
index is the SAX hash modulo `num_avail * total_adv_subslots`, decomposed
vertically, with channel offsets shifted by one in the enhanced variant. -/
def mbasAllocPair (numChannels totalAdvSubslots : ℕ) (enhanced : Bool)
    (mac : List ℕ) : ℕ × ℕ :=
  let nAvail := if enhanced then numChannels - 1 else numChannels
  let cell := sax mac % (nAvail * totalAdvSubslots)
  (cell / nAvail, cell % nAvail + (if enhanced then 1 else 0))

/-! ## (E)CFAS constructor stage (`JoiningPhaseSimulator.__init__`, lines 95-157)

`num_required_adv_slots` is `int(math.ceil(a / b))`; the Python float division
is exact at every argument size the simulator accepts, so it is modelled as
the exact ceiling division on naturals.
-/

/-- Exact ceiling division, modelling `int(math.ceil(a / b))` for `b > 0`. -/
def cdiv (a b : ℕ) : ℕ := (a + b - 1) / b

inductive EBSchedulingMethod where
  | CFASV | MAC_BASED_AS | CFASH | ECFASV | EMAC_BASED_AS | ECFASH
  | ECV | ECH | Minimal6TiSCH
  deriving DecidableEq, Repr

/-- The base (E)CFAS variants of lines 98-99: CFASV, CFASH and MAC_BASED_AS. -/
def isCfasBase : EBSchedulingMethod → Bool
  | .CFASV | .CFASH | .MAC_BASED_AS => true
  | _ => false

/-- All methods handled by the (E)CFAS branch of the constructor (line 95). -/
def isCfasFamily : EBSchedulingMethod → Bool
  | .CFASV | .CFASH | .MAC_BASED_AS | .ECFASV | .ECFASH | .EMAC_BASED_AS => true
  | _ => false

/-- `num_required_adv_slots` per slotframe (lines 100-103 and 126-130). -/
def cfasRequiredAdvSlots (m : EBSchedulingMethod)
    (numFfds numChannels ebi spa : ℕ) : ℕ :=
  if isCfasBase m then cdiv numFfds (numChannels * ebi * spa)
  else cdiv (numFfds - 1) ((numChannels - 1) * ebi * spa)

/-- The id-to-cell collision scan of lines 114-123 / 142-152: walking the node
ids in group order and inserting `id % totalCells` into a set succeeds iff the
residues are pairwise distinct. -/
def cfasIdCheckOk (ids : List ℕ) (totalCells : ℕ) : Bool :=
  (ids.map (· % totalCells)).Nodup

/-- Advertisement slot positions for the (E)CFAS families (lines 154-155): for
each slotframe start `i` in `range(0, num_slots_in_ms, L)` the slots
`i, …, i + R - 1`. -/
def advSlotsPosCfas (L ebi R : ℕ) : List ℕ :=
  (List.range ebi).flatMap (fun k => (List.range R).map (fun j => k * L + j))

/-- Advertisement slot positions for ECV/ECH/Minimal6TiSCH (line 93): one slot
per slotframe at positions `0, L, 2L, …`. -/
def advSlotsPosEcv (L ebi : ℕ) : List ℕ := (List.range ebi).map (· * L)

inductive CfasConfigError where
  | slotframeTooShort
  | nonInjectiveIds
  deriving DecidableEq, Repr

/-- The id-injectivity scan of the constructor: for CFASV/CFASH all FFDs are
scanned against `total_adv_cells = R·spa·ebi·num_channels` (lines 113-123),
for ECFASV/ECFASH the FFDs other than the PAN coordinator are scanned against
`R·spa·ebi·(num_channels − 1)` (lines 141-152), and the MAC-based variants
perform no scan. -/
def cfasIdsOk (m : EBSchedulingMethod) (ffds : List ℕ) (pancId R spa ebi nch : ℕ) : Bool :=
  match m with
  | .CFASV | .CFASH => cfasIdCheckOk ffds (R * spa * ebi * nch)
  | .ECFASV | .ECFASH =>
      cfasIdCheckOk (ffds.filter (fun i => i ≠ pancId)) (R * spa * ebi * (nch - 1))
  | _ => true

/-- The (E)CFAS branch of `JoiningPhaseSimulator.__init__` (lines 95-157):
computes the required number of advertisement slots, rejects the
configuration when it exceeds the slotframe length, then (for the non-MAC
variants) rejects non-injective id mappings; on success it yields the number
of required slots and the advertisement slot positions.  `ffds` lists the ids
of the FFD nodes in group order (node ids are unique within a group), and
`pancId` is the PAN coordinator id. -/
def cfasInit (m : EBSchedulingMethod) (L numChannels ebi spa : ℕ)
    (ffds : List ℕ) (pancId : ℕ) : Except CfasConfigError (ℕ × List ℕ) :=
  let R := cfasRequiredAdvSlots m ffds.length numChannels ebi spa
  if R > L then .error .slotframeTooShort
  else if cfasIdsOk m ffds pancId R spa ebi numChannels then
    .ok (R, advSlotsPosCfas L ebi R)
  else .error .nonInjectiveIds

/-- The cell computed by `__cfasv_allocate_adv_cell` (lines 577-591). -/
def cfasvAllocPair (numChannels totalAdvSubslots : ℕ) (enhanced : Bool)
    (id : ℕ) : ℕ × ℕ :=
  let nAvail := if enhanced then numChannels - 1 else numChannels
  let cell := id % (totalAdvSubslots * nAvail)
  (cell / nAvail, cell % nAvail + (if enhanced then 1 else 0))

/-- The cell computed by `__cfash_allocate_adv_cell` (lines 621-635). -/
def cfashAllocPair (numChannels totalAdvSubslots : ℕ) (enhanced : Bool)
    (id : ℕ) : ℕ × ℕ :=
  let nAvail := if enhanced then numChannels - 1 else numChannels
  let cell := id % (totalAdvSubslots * nAvail)
  (cell % totalAdvSubslots, cell / totalAdvSubslots + (if enhanced then 1 else 0))

/-- The single advertisement cell of a non-coordinator FFD under the vertical
or horizontal (E)CFAS variants. -/
def cfasAllocPair (m : EBSchedulingMethod) (numChannels totalAdvSubslots : ℕ)
    (id : ℕ) : ℕ × ℕ :=
  match m with
  | .CFASV => cfasvAllocPair numChannels totalAdvSubslots false id
  | .CFASH => cfashAllocPair numChannels totalAdvSubslots false id
  | .ECFASV => cfasvAllocPair numChannels totalAdvSubslots true id
  | _ => cfashAllocPair numChannels totalAdvSubslots true id

/-! ## Serial subslot numbers and channel hopping
(`__init__` lines 167-185, `__channel_calculation` lines 656-660) -/

/-- The `spa` consecutive ssn values appended for one advertisement slot. -/
def ssnBlock (start spa : ℕ) : List ℕ := (List.range spa).map (fun j => start + j)

/-- The tail of the precalculated ssn table: for each further advertisement
slot position `p`, the block restarts from `last + 1` when `p` lies in the
same slotframe as the previous position, and from 0 otherwise (lines
176-185). -/
def ssnTableAux (L spa : ℕ) : ℕ → ℕ → List ℕ → List ℕ
  | _, _, [] => []
  | prevPos, lastSsn, p :: rest =>
      let next := if prevPos / L = p / L then lastSsn + 1 else 0
      ssnBlock next spa ++ ssnTableAux L spa p (next + spa - 1) rest

/-- The precalculated `self.__ssn` table (lines 171-185): ssn values for the
subslots of the first advertisement slot are `0, …, spa - 1`, followed by the
blocks of the remaining slots. -/
def ssnTable (L spa : ℕ) : List ℕ → List ℕ
  | [] => []
  | p :: rest => ssnBlock 0 spa ++ ssnTableAux L spa p (spa - 1) rest

/-- The number of advertisement slots strictly before slot `i` that lie in the
same slotframe as slot `i`; the specification characterises the ssn of
subslot `(i, j)` as this count times `spa` plus `j`. -/
def specSlotsBeforeInSameSlotframe (L : ℕ) (advPos : List ℕ) (i : ℕ) : ℕ :=
  (advPos.take i).countP (fun q => q / L = (advPos.getD i 0) / L)

/-- `__channel_calculation` (lines 656-660): argument order of the Python
function is `(ch_offset, asn, ssn=None)`. -/
def channelCalculation (numChannels choffset asn : ℕ) (ssn : Option ℕ) : ℕ :=
  match ssn with
  | some s => (asn + s + choffset) % numChannels
  | none => (asn + choffset) % numChannels

/-- The ssn argument the driver passes to `__channel_calculation` (line 361):
the table entry for the advertisement subslot when more than one subslot per
advertisement slot exists, `None` otherwise. -/
def driverSsnArg (L spa : ℕ) (advPos : List ℕ) (advSubslotIdx : ℕ) : Option ℕ :=
  if spa > 1 then some ((ssnTable L spa advPos).getD advSubslotIdx 0) else none

/-- The physical channel used for a transmission with channel offset
`choffset` in subslot `j` of advertisement slot `i` at slot number `asn`. -/
def subslotChannel (numChannels L spa : ℕ) (advPos : List ℕ)
    (asn i j choffset : ℕ) : ℕ :=
  channelCalculation numChannels choffset asn (driverSsnArg L spa advPos (i * spa + j))

/-! ## The joining-phase driver (`__run_simulation`, lines 348-530)

The driver state mirrors the instance attributes set up by `execute`.  The
quantities the Python code obtains from its pseudo-random generators and from
floating-point signal arithmetic (received power against sensitivity, the
outcome of `__captured_eb`, the `randint` results) are oracle parameters
indexed by a subslot step counter `t`; one run of the Python code corresponds
to one valuation of the oracles.
-/

/-- The static configuration derived by `JoiningPhaseSimulator.__init__`:
geometry of the multi-slotframe, durations in nanoseconds, and the node group
(ids, FFD flags, MAC octets, the PAN coordinator id). -/
structure SimConfig where
  method : EBSchedulingMethod
  numChannels : ℕ
  spa : ℕ
  numAdvSlotsInMs : ℕ
  numSlotsInMs : ℕ
  advSlotsPos : List ℕ
  totalAdvSubslots : ℕ
  slot0StartNs : ℕ
  timeslotLenNs : ℕ
  subslotLenNs : ℕ
  tEbNs : ℕ
  rxWaitNs : ℕ
  nodes : List ℕ
  isFfd : ℕ → Bool
  macOf : ℕ → List ℕ
  pancId : ℕ

/-- Oracles abstracting the stochastic and floating-point parts of a run:
`signal t a b` is the sensing-side test `rx_power ≥ sensitivity` between
advertiser `a` and observer `b`, `rxOk` is the same test in the candidate-EB
construction, `capture t n` tells whether `__captured_eb` returns an EB for
node `n`, and the remaining fields are raw draws feeding `randint`. -/
structure SimOracles where
  signal : ℕ → ℕ → ℕ → Bool
  rxOk : ℕ → ℕ → ℕ → Bool
  capture : ℕ → ℕ → Bool
  fallbackSubslotDraw : ℕ → ℕ → ℕ
  fallbackOffsetDraw : ℕ → ℕ → ℕ
  m6tDraw : ℕ → ℕ → ℕ

/-- The result of `random.randint(lo, hi)` as a function of a raw draw: a
value in `[lo, hi]` determined by the generator state. -/
def randintDraw (lo hi raw : ℕ) : ℕ := lo + raw % (hi + 1 - lo)

/-- The mutable simulation state of one run. -/
structure DriverState where
  advertisers : Finset ℕ
  joined : Finset ℕ
  unjoined : Finset ℕ
  ebTx : ℕ → ℕ
  alloc : ℕ → ℕ → Option ℕ
  syncAsn : ℕ → Option ℕ
  sensing : ℕ × ℕ → Finset ℕ
  numSensed : ℕ → ℕ
  msfIdx : ℕ

/-- `__is_a_neighbor_transmitting` (lines 662-675): some advertiser other
than the observer holds channel offset `choffset` in the subslot and its
signal reaches the observer. -/
def isANeighborTransmitting (advertisers : Finset ℕ) (alloc : ℕ → ℕ → Option ℕ)
    (signal : ℕ → ℕ → Bool) (observer subslot choffset : ℕ) : Bool :=
  decide (∃ a ∈ advertisers, a ≠ observer ∧ alloc a subslot = some choffset ∧
    signal a observer = true)

/-- Whether the scheduling method is one of the dynamic sensing variants. -/
def isEcvEch : EBSchedulingMethod → Bool
  | .ECV | .ECH => true
  | _ => false

/-- The cell a busy sensing node moves to (lines 390-401): ECV walks the
channels of a subslot before moving to the next subslot at channel 1, ECH
walks the subslots of a channel before moving to the next channel at
subslot 0. -/
def ecNextCell (m : EBSchedulingMethod) (numChannels totalAdvSubslots s c : ℕ) : ℕ × ℕ :=
  match m with
  | .ECV => if c = numChannels - 1 then (s + 1, 1) else (s, c + 1)
  | _ => if s = totalAdvSubslots - 1 then (0, c + 1) else (s + 1, c)

/-- The state threaded through the per-channel loop of the sensing pass:
the sensing sets (being cleaned), the allocations, the sensing counters and
the pending `sensing_nodes_new` entries (flushed after the loop). -/
structure EcPassState where
  sensing : ℕ × ℕ → Finset ℕ
  alloc : ℕ → ℕ → Option ℕ
  numSensed : ℕ → ℕ
  newCells : List ((ℕ × ℕ) × Finset ℕ)

/-- The body of the per-channel sensing loop (lines 373-408) for channel
offset `c` of advertisement subslot `s`: count a sensed slot for every
listening node, split the cell into busy and free nodes, allocate the cell to
the free nodes, clean the cell, and either record the busy nodes under the
next cell of the walk or, at the very last cell, give each busy node a random
allocation. -/
def ecChannelStep (cfg : SimConfig) (orc : SimOracles) (advertisers : Finset ℕ)
    (t s c : ℕ) (ps : EcPassState) : EcPassState :=
  let nodesSense := ps.sensing (s, c)
  let busy := nodesSense.filter
    (fun n => isANeighborTransmitting advertisers ps.alloc (orc.signal t) n s c = true)
  let free := nodesSense \ busy
  let numSensed1 := fun n => if n ∈ nodesSense then ps.numSensed n + 1 else ps.numSensed n
  let alloc1 := fun n ss => if n ∈ free ∧ ss = s then some c else ps.alloc n ss
  let sensing1 := fun cell => if cell = (s, c) then (∅ : Finset ℕ) else ps.sensing cell
  if s = cfg.totalAdvSubslots - 1 ∧ c = cfg.numChannels - 1 then
    let alloc2 := fun n ss =>
      if n ∈ busy ∧ ss = randintDraw 0 (cfg.totalAdvSubslots - 1) (orc.fallbackSubslotDraw t n)
      then some (randintDraw 1 (cfg.numChannels - 1) (orc.fallbackOffsetDraw t n))
      else alloc1 n ss
    { sensing := sensing1, alloc := alloc2, numSensed := numSensed1,
      newCells := ps.newCells }
  else
    { sensing := sensing1, alloc := alloc1, numSensed := numSensed1,
      newCells := ps.newCells ++
        [(ecNextCell cfg.method cfg.numChannels cfg.totalAdvSubslots s c, busy)] }

/-- The sensing-pass state after the channels `1, …, k` of subslot `s` have
been processed. -/
def ecPassStateAt (cfg : SimConfig) (orc : SimOracles) (advertisers : Finset ℕ)
    (t s : ℕ) (ps0 : EcPassState) (k : ℕ) : EcPassState :=
  (List.range k).foldl (fun ps c => ecChannelStep cfg orc advertisers t s (c + 1) ps) ps0

/-- The busy set computed when channel `c` of subslot `s` is processed. -/
def passBusySet (cfg : SimConfig) (orc : SimOracles) (advertisers : Finset ℕ)
    (t s : ℕ) (ps0 : EcPassState) (c : ℕ) : Finset ℕ :=
  let ps := ecPassStateAt cfg orc advertisers t s ps0 (c - 1)
  (ps.sensing (s, c)).filter
    (fun n => isANeighborTransmitting advertisers ps.alloc (orc.signal t) n s c = true)

/-- The flush of `sensing_nodes_new` into `sensing_nodes` (lines 410-411):
each recorded key is overwritten with its recorded set. -/
def flushNewCells (new : List ((ℕ × ℕ) × Finset ℕ))
    (sensing : ℕ × ℕ → Finset ℕ) : ℕ × ℕ → Finset ℕ :=
  new.foldl (fun sn kv => fun cell => if cell = kv.1 then kv.2 else sn cell) sensing

/-- The complete sensing pass for advertisement subslot `s` (lines 370-411):
the per-channel loop over channel offsets `1, …, num_channels - 1` followed by
the flush of the pending entries. -/
def ecSensingPass (cfg : SimConfig) (orc : SimOracles) (advertisers : Finset ℕ)
    (t s : ℕ) (ps0 : EcPassState) : EcPassState :=
  let psEnd := ecPassStateAt cfg orc advertisers t s ps0 (cfg.numChannels - 1)
  { psEnd with sensing := flushNewCells psEnd.newCells psEnd.sensing, newCells := [] }

/-- The accumulator of the capture loop over the unjoined nodes
(lines 413-497). -/
structure CaptureAcc where
  newJoined : Finset ℕ
  newAdvertisers : Finset ℕ
  ebTx : ℕ → ℕ
  alloc : ℕ → ℕ → Option ℕ
  syncAsn : ℕ → Option ℕ
  sensing : ℕ × ℕ → Finset ℕ

/-- The candidate-EB sources for a scanning node in a subslot (lines
432-465): the advertisers holding an allocation for the subslot whose signal
reaches the node. -/
def captureCandidates (advertisers : Finset ℕ) (alloc : ℕ → ℕ → Option ℕ)
    (rxOk : ℕ → ℕ → Bool) (subslotIdx node : ℕ) : Finset ℕ :=
  advertisers.filter (fun a => alloc a subslotIdx ≠ none ∧ rxOk a node = true)

/-- Writing one allocated cell into the allocation map of a node. -/
def setAllocPair (alloc : ℕ → ℕ → Option ℕ) (node : ℕ) (pair : ℕ × ℕ) :
    ℕ → ℕ → Option ℕ :=
  fun n ss => if n = node ∧ ss = pair.1 then some pair.2 else alloc n ss

/-- The schedule allocated to a newly joined FFD (lines 477-497): the static
(E)CFAS and MAC-based formulas, a random slot at channel offset 0 for
Minimal6TiSCH, and no allocation yet for ECV/ECH (the node starts sensing
instead). -/
def allocNewFfd (cfg : SimConfig) (orc : SimOracles) (t node : ℕ)
    (alloc : ℕ → ℕ → Option ℕ) : ℕ → ℕ → Option ℕ :=
  match cfg.method with
  | .CFASV => setAllocPair alloc node
      (cfasvAllocPair cfg.numChannels cfg.totalAdvSubslots false node)
  | .MAC_BASED_AS => setAllocPair alloc node
      (mbasAllocPair cfg.numChannels cfg.totalAdvSubslots false (cfg.macOf node))
  | .CFASH => setAllocPair alloc node
      (cfashAllocPair cfg.numChannels cfg.totalAdvSubslots false node)
  | .ECFASV => setAllocPair alloc node
      (cfasvAllocPair cfg.numChannels cfg.totalAdvSubslots true node)
  | .EMAC_BASED_AS => setAllocPair alloc node
      (mbasAllocPair cfg.numChannels cfg.totalAdvSubslots true (cfg.macOf node))
  | .ECFASH => setAllocPair alloc node
      (cfashAllocPair cfg.numChannels cfg.totalAdvSubslots true node)
  | .Minimal6TiSCH => setAllocPair alloc node
      (randintDraw 0 (cfg.numAdvSlotsInMs - 1) (orc.m6tDraw t node), 0)
  | _ => alloc

/-- Processing one unjoined node in the capture loop (lines 416-497): build
the candidate list from the advertisers, ask the capture model, and on
success record the join, the synchronization ASN, and (for FFDs) the
promotion, the counter reset and the fresh schedule (ECV/ECH enroll the node
as a sensor of cell (0, 1) instead). -/
def captureOne (cfg : SimConfig) (orc : SimOracles) (t asn subslotIdx : ℕ)
    (advertisers : Finset ℕ) (acc : CaptureAcc) (node : ℕ) : CaptureAcc :=
  let candidates := captureCandidates advertisers acc.alloc (orc.rxOk t) subslotIdx node
  if candidates.Nonempty ∧ orc.capture t node = true then
    let syncAsn1 := fun n =>
      if n = node ∧ acc.syncAsn node = none then some asn else acc.syncAsn n
    if cfg.isFfd node then
      { newJoined := insert node acc.newJoined,
        newAdvertisers := insert node acc.newAdvertisers,
        ebTx := fun n => if n = node then 0 else acc.ebTx n,
        alloc := allocNewFfd cfg orc t node acc.alloc,
        syncAsn := syncAsn1,
        sensing :=
          if isEcvEch cfg.method then
            fun cell => if cell = (0, 1) then insert node (acc.sensing cell)
              else acc.sensing cell
          else acc.sensing }
    else
      { acc with newJoined := insert node acc.newJoined, syncAsn := syncAsn1 }
  else acc

/-- The capture loop over all unjoined nodes of the subslot. -/
def driverCapturePhase (cfg : SimConfig) (orc : SimOracles) (t asn subslotIdx : ℕ)
    (st : DriverState) : CaptureAcc :=
  (cfg.nodes.filter (fun n => decide (n ∈ st.unjoined))).foldl
    (captureOne cfg orc t asn subslotIdx st.advertisers)
    { newJoined := ∅, newAdvertisers := ∅, ebTx := st.ebTx, alloc := st.alloc,
      syncAsn := st.syncAsn, sensing := st.sensing }

/-- One advertisement subslot of the main loop (lines 359-501): update the
EB counters of the advertisers holding the subslot, run the sensing pass for
ECV/ECH, run the capture loop, and fold the newly joined nodes into the
state.  The advertiser set used by the counters, the sensing pass and the
candidate construction is the one at subslot entry; promotions take effect
afterwards. -/
def driverSubslotStep (cfg : SimConfig) (orc : SimOracles) (t i j : ℕ)
    (st : DriverState) : DriverState :=
  let subslotIdx := i * cfg.spa + j
  let asn := st.msfIdx * cfg.numSlotsInMs + cfg.advSlotsPos.getD i 0
  let ebTx1 := fun n =>
    if n ∈ st.advertisers ∧ st.alloc n subslotIdx ≠ none then st.ebTx n + 1 else st.ebTx n
  let afterSensing :=
    if isEcvEch cfg.method then
      ecSensingPass cfg orc st.advertisers t subslotIdx
        { sensing := st.sensing, alloc := st.alloc, numSensed := st.numSensed,
          newCells := [] }
    else
      { sensing := st.sensing, alloc := st.alloc, numSensed := st.numSensed,
        newCells := [] }
  let stMid : DriverState :=
    { st with
      ebTx := ebTx1
      sensing := afterSensing.sensing
      alloc := afterSensing.alloc
      numSensed := afterSensing.numSensed }
  let acc := driverCapturePhase cfg orc t asn subslotIdx stMid
  { advertisers := stMid.advertisers ∪ acc.newAdvertisers,
    joined := stMid.joined ∪ acc.newJoined,
    unjoined := stMid.unjoined \ acc.newJoined,
    ebTx := acc.ebTx, alloc := acc.alloc, syncAsn := acc.syncAsn,
    sensing := acc.sensing, numSensed := stMid.numSensed, msfIdx := st.msfIdx }

/-- End time of subslot `j` of the advertisement slot at slot number `asn`:
the network formation time recorded at convergence (lines 506-508). -/
def subslotEndNs (cfg : SimConfig) (asn j : ℕ) : ℕ :=
  cfg.slot0StartNs + asn * cfg.timeslotLenNs + (j + 1) * cfg.subslotLenNs

/-- The convergence test on the sensing state (line 514): every sensing set
of the ECV/ECH grid is empty. -/
def sensingAllEmptyB (cfg : SimConfig) (st : DriverState) : Bool :=
  (List.range cfg.totalAdvSubslots).all (fun s =>
    (List.range (cfg.numChannels - 1)).all (fun k => decide (st.sensing (s, k + 1) = ∅)))

/-- The main loop (lines 353-530), fuel-bounded: process the subslot, record
the network formation time when the unjoined set first becomes empty, and
return it (together with the formation ASN and the final state) once the
ECV/ECH sensing has also drained; otherwise advance to the next subslot,
advertisement slot or multi-slotframe. -/
def runSim (cfg : SimConfig) (orc : SimOracles) :
    ℕ → ℕ → ℕ → ℕ → DriverState → Option ℕ → Option (ℕ × ℕ × DriverState)
  | 0, _, _, _, _, _ => none
  | fuel + 1, t, i, j, st, nft =>
      let asn := st.msfIdx * cfg.numSlotsInMs + cfg.advSlotsPos.getD i 0
      let st1 := driverSubslotStep cfg orc t i j st
      let nft1 := if st1.unjoined = ∅ then some (nft.getD (subslotEndNs cfg asn j)) else nft
      if st1.unjoined = ∅ ∧ (isEcvEch cfg.method = false ∨ sensingAllEmptyB cfg st1 = true)
      then some (nft1.getD 0, asn, st1)
      else if j + 1 < cfg.spa then runSim cfg orc fuel (t + 1) i (j + 1) st1 nft1
      else if i + 1 < cfg.numAdvSlotsInMs then runSim cfg orc fuel (t + 1) (i + 1) 0 st1 nft1
      else runSim cfg orc fuel (t + 1) 0 0 { st1 with msfIdx := st1.msfIdx + 1 } nft1

/-- `__make_scheduling_for_the_pan_coordinator` (lines 637-654). -/
def pancScheduling (cfg : SimConfig) : ℕ → ℕ → Option ℕ :=
  fun n ss =>
    if n = cfg.pancId then
      match cfg.method with
      | .Minimal6TiSCH => if ss = 0 then some 0 else none
      | .CFASV =>
          let p := cfasvAllocPair cfg.numChannels cfg.totalAdvSubslots false cfg.pancId
          if ss = p.1 then some p.2 else none
      | .MAC_BASED_AS =>
          let p := mbasAllocPair cfg.numChannels cfg.totalAdvSubslots false
            (cfg.macOf cfg.pancId)
          if ss = p.1 then some p.2 else none
      | .CFASH =>
          let p := cfashAllocPair cfg.numChannels cfg.totalAdvSubslots false cfg.pancId
          if ss = p.1 then some p.2 else none
      | _ => if ss < cfg.totalAdvSubslots then some 0 else none
    else none

/-- The state set up by `execute` before the main loop (lines 197-234): only
the PAN coordinator is joined and advertising, with its schedule installed
and its counters initialised. -/
def executeInit (cfg : SimConfig) : DriverState :=
  { advertisers := {cfg.pancId},
    joined := {cfg.pancId},
    unjoined := (cfg.nodes.filter (fun n => decide (n ≠ cfg.pancId))).toFinset,
    ebTx := fun _ => 0,
    alloc := pancScheduling cfg,
    syncAsn := fun n => if n = cfg.pancId then some 0 else none,
    sensing := fun _ => ∅,
    numSensed := fun _ => 0,
    msfIdx := 0 }

/-- The methods whose energy accounting skips the PAN coordinator
(lines 553-556). -/
def energySkipsPanc : EBSchedulingMethod → Bool
  | .ECV | .ECH | .ECFASV | .ECFASH | .EMAC_BASED_AS => true
  | _ => false

/-- Per-node energy of `__total_energy_consumption` (lines 532-575) over the
exact rationals; the claims proved about it only exercise arguments where
Python float arithmetic is exact. -/
def nodeEnergyQ (cfg : SimConfig) (st : DriverState) (formationAsn n : ℕ) : ℚ :=
  let rxA : ℚ := 1 / 50
  let txA : ℚ := 3 / 125
  let idleA : ℚ := 13 / 10 ^ 7
  let volts : ℚ := 37 / 10
  let tsSec : ℚ := (cfg.timeslotLenNs : ℚ) / 10 ^ 9
  let tEbSec : ℚ := (cfg.tEbNs : ℚ) / 10 ^ 9
  let syncA : ℚ := ((st.syncAsn n).getD 0 : ℕ)
  let cnt : ℚ := (st.ebTx n : ℕ)
  let base := syncA * tsSec * rxA * volts + cnt * tEbSec * txA * volts +
    ((formationAsn : ℚ) - syncA - cnt) * tsSec * idleA * volts
  if isEcvEch cfg.method then
    base + (st.numSensed n : ℚ) * ((cfg.rxWaitNs : ℚ) / 10 ^ 9) * rxA * volts
  else base

/-- The total energy returned by `execute`: the sum over the group, skipping
the PAN coordinator for the enhanced methods. -/
def totalEnergyQ (cfg : SimConfig) (st : DriverState) (formationAsn : ℕ) : ℚ :=
  (cfg.nodes.filter
    (fun n => !(energySkipsPanc cfg.method && decide (n = cfg.pancId)))).foldl
    (fun acc n => acc + nodeEnergyQ cfg st formationAsn n) 0

/-! ## Invariants of the ECV/ECH sensing state (claim C10) -/

/-- A sensing cell of the ECV/ECH grid: subslot below the total, channel
offset in `[1, num_channels)`. -/
def cellInRange (cfg : SimConfig) (cell : ℕ × ℕ) : Prop :=
  cell.1 < cfg.totalAdvSubslots ∧ 1 ≤ cell.2 ∧ cell.2 < cfg.numChannels

/-- Where a non-empty sensing set may live when subslot `pos` is the next
one to be processed: under ECV a cohort waits inside its own subslot row, so
only channel-1 cells are constrained (they are written by the spill of the
previous subslot and by new joiners at (0, 1)); under ECH cohorts move down
one subslot per pass, so every non-empty cell lies in row `pos`, except the
joiner cell (0, 1). -/
def ecLocOk (cfg : SimConfig) (pos : ℕ) (cell : ℕ × ℕ) : Prop :=
  match cfg.method with
  | .ECV => cell.2 = 1 → cell.1 = pos ∨ cell.1 = 0
  | _ => cell.1 = pos ∨ cell = (0, 1)

/-- The sensing-state invariant of a run: every non-empty sensing set sits
in a legal cell for the current position, the sensing sets are pairwise
disjoint, every sensing node is allocation-free and no longer unjoined, and
unjoined nodes hold no allocation. -/
def EcInvariant (cfg : SimConfig) (st : DriverState) (pos : ℕ) : Prop :=
  (∀ cell : ℕ × ℕ, (st.sensing cell).Nonempty → cellInRange cfg cell ∧ ecLocOk cfg pos cell) ∧
  (∀ cell cell2 : ℕ × ℕ, cell ≠ cell2 → Disjoint (st.sensing cell) (st.sensing cell2)) ∧
  (∀ n cell, n ∈ st.sensing cell → (∀ ss, st.alloc n ss = none) ∧ n ∉ st.unjoined) ∧
  (∀ n, n ∈ st.unjoined → ∀ ss, st.alloc n ss = none)

/-- Safety of the flush of `sensing_nodes_new`: at the moment the pending
entries are written back, every recorded key holds an empty set (so the
assignment of line 411 never discards sensing nodes) and the joiner cell
(0, 1) is never a recorded key. -/
def ecPassFlushSafe (cfg : SimConfig) (orc : SimOracles) (advertisers : Finset ℕ)
    (t s : ℕ) (ps0 : EcPassState) : Prop :=
  ∀ kv ∈ (ecPassStateAt cfg orc advertisers t s ps0 (cfg.numChannels - 1)).newCells,
    (ecPassStateAt cfg orc advertisers t s ps0 (cfg.numChannels - 1)).sensing kv.1 = ∅ ∧
    kv.1 ≠ (0, 1)

/-- The pass state handed to the sensing pass by the driver step. -/
def passInputOf (st : DriverState) : EcPassState :=
  { sensing := st.sensing, alloc := st.alloc, numSensed := st.numSensed, newCells := [] }

/-- The states a run of the main loop can reach, together with the index of
the advertisement subslot to be processed next: `execute` starts at the
initial state and subslot 0, and each processed subslot advances the
position cyclically through the multi-slotframe. -/
inductive DriverReach (cfg : SimConfig) (orc : SimOracles) : DriverState → ℕ → Prop where
  | init : DriverReach cfg orc (executeInit cfg) 0
  | step (st : DriverState) (s t i j : ℕ) :
      DriverReach cfg orc st s → s = i * cfg.spa + j → j < cfg.spa →
      i < cfg.numAdvSlotsInMs →
      DriverReach cfg orc (driverSubslotStep cfg orc t i j st)
        ((s + 1) % cfg.totalAdvSubslots)

/-! ## The random sources (claim C1)

`JoiningPhaseSimulator.__init__` ends with `self.__randgen = random.Random()`
(line 187): the generator is created without a seed, so its state is derived
from operating-system entropy; none of the constructor arguments influences
it, and neither the constructor nor `execute`/`rejoining_attempt` accepts a
seed.  The ECV/ECH fallback (lines 406-408) additionally draws from the
unseeded module-level `random` generator, and `NodeGroup.___assign_mac_addr`
draws MAC bytes from it as well.
-/

/-- The constructor arguments of `JoiningPhaseSimulator` (lines 37-38),
with the node group represented by its node ids: this is the complete
configuration surface of a simulation; there is no seed parameter. -/
structure JPSArgs where
  nodeIds : List ℕ
  schedulingMethod : EBSchedulingMethod
  timeslot : TimeslotAttrs
  slotframeLength : ℕ
  ebLength : ℕ
  numChannels : ℕ
  scanDurationNs : ℕ
  ebi : ℕ
  atpEnabled : Bool

/-- The per-run generator state produced by line 187: `random.Random()` takes
no arguments, so the resulting draw stream is a function of the
operating-system entropy alone and of no constructor argument. -/
def jpsInitRandgen (_a : JPSArgs) (osEntropy : ℕ → ℕ) : ℕ → ℕ := osEntropy

/-- The slotframe drawn for a newly joined Minimal6TiSCH advertiser
(lines 494-495): `self.__randgen.randint(0, num_adv_slots_in_ms - 1)`. -/
def minimal6tischSlotChoice (numAdvSlotsInMs : ℕ) (randgen : ℕ → ℕ) : ℕ :=
  randintDraw 0 (numAdvSlotsInMs - 1) (randgen 0)

/-! ## Concrete instances used by counterexamples and witnesses -/

/-- Oracles under which no signal is received and nothing is captured. -/
def orcNone : SimOracles :=
  { signal := fun _ _ _ => false, rxOk := fun _ _ _ => false,
    capture := fun _ _ => false, fallbackSubslotDraw := fun _ _ => 0,
    fallbackOffsetDraw := fun _ _ => 0, m6tDraw := fun _ _ => 0 }

/-- A group holding only the PAN coordinator (id 0) under ECV: slotframe
length 101, one slotframe per multi-slotframe, 16 channels, ATP disabled,
data rate 250000 bps and EB length 50 bytes (so `t_eb` is exactly 1792000 ns
and a subslot lasts 2120000 + 1792000 ns), boot time 0. -/
def cfgSingle : SimConfig :=
  { method := .ECV, numChannels := 16, spa := 1, numAdvSlotsInMs := 1,
    numSlotsInMs := 101, advSlotsPos := advSlotsPosEcv 101 1,
    totalAdvSubslots := 1, slot0StartNs := 0, timeslotLenNs := 10000000,
    subslotLenNs := 3912000, tEbNs := 1792000, rxWaitNs := 2200000,
    nodes := [0], isFfd := fun _ => true, macOf := fun _ => macOctets 0 0 0,
    pancId := 0 }

/-- The run of `execute` on `cfgSingle` (one subslot of fuel suffices). -/
def c2Run : Option (ℕ × ℕ × DriverState) :=
  runSim cfgSingle orcNone 1 0 0 0 (executeInit cfgSingle) none

/-- A three-node Minimal6TiSCH group: PAN coordinator 0, an FFD 1 and an
RFD 2, slotframe length 101, two slotframes per multi-slotframe, 16
channels, ATP disabled. -/
def cfgThree : SimConfig :=
  { method := .Minimal6TiSCH, numChannels := 16, spa := 1, numAdvSlotsInMs := 2,
    numSlotsInMs := 202, advSlotsPos := advSlotsPosEcv 101 2,
    totalAdvSubslots := 2, slot0StartNs := 0, timeslotLenNs := 10000000,
    subslotLenNs := 3912000, tEbNs := 1792000, rxWaitNs := 2200000,
    nodes := [0, 1, 2], isFfd := fun n => n ≠ 2,
    macOf := fun _ => macOctets 0 0 0, pancId := 0 }

/-- Oracles for `cfgThree` built over a given per-run generator stream: all
capture decisions succeed, every signal reaches its destination except that
the PAN coordinator is out of range of node 2, and the Minimal6TiSCH slot
draw of a new advertiser is the first output of the generator. -/
def orcThree (g : ℕ → ℕ) : SimOracles :=
  { signal := fun _ _ _ => true,
    rxOk := fun _ a b => !(a = 0 && b = 2),
    capture := fun _ _ => true,
    fallbackSubslotDraw := fun _ _ => 0,
    fallbackOffsetDraw := fun _ _ => 0,
    m6tDraw := fun _ _ => g 0 }

/-- A run of `execute` on `cfgThree` with the generator stream derived from
the given operating-system entropy. -/
def c1Run (osEntropy : ℕ → ℕ) : Option (ℕ × ℕ × DriverState) :=
  runSim cfgThree (orcThree (jpsInitRandgen
    { nodeIds := [0, 1, 2], schedulingMethod := .Minimal6TiSCH,
      timeslot := defaultTemplate2450, slotframeLength := 101, ebLength := 50,
      numChannels := 16, scanDurationNs := 2020000000, ebi := 2,
      atpEnabled := false } osEntropy)) 3 0 0 0 (executeInit cfgThree) none

/-- A sensing-pass input with one node (id 5) listening on cell (0, 1), one
advertiser (the PAN coordinator, id 0) holding channel offset 1 in every
subslot, used to exercise the sensing walk. -/
def psEcW : EcPassState :=
  { sensing := fun cell => if cell = (0, 1) then {5} else ∅,
    alloc := fun n _ => if n = 0 then some 1 else none,
    numSensed := fun _ => 0,
    newCells := [] }

/-- The numerator of the `num_required_adv_slots` ceiling: the number of
FFDs, excluding the PAN coordinator for the enhanced variants. -/
def cfasNumerator (m : EBSchedulingMethod) (numFfds : ℕ) : ℕ :=
  if isCfasBase m then numFfds else numFfds - 1

/-- The denominator of the `num_required_adv_slots` ceiling. -/
def cfasDenominator (m : EBSchedulingMethod) (nch ebi spa : ℕ) : ℕ :=
  (if isCfasBase m then nch else nch - 1) * ebi * spa

/-- The channel-offset space of the id-to-cell map: all channels for
CFASV/CFASH, all but offset 0 for the enhanced variants. -/
def cfasChSpace (m : EBSchedulingMethod) (nch : ℕ) : ℕ :=
  if m = .CFASV ∨ m = .CFASH then nch else nch - 1

/-- The FFDs the startup injectivity scan ranges over: every FFD for
CFASV/CFASH, the FFDs other than the PAN coordinator for the enhanced
variants. -/
def cfasRelevantIds (m : EBSchedulingMethod) (ffds : List ℕ) (pancId : ℕ) : List ℕ :=
  if m = .CFASV ∨ m = .CFASH then ffds else ffds.filter (fun i => i ≠ pancId)

/-- `total_adv_cells` of the startup scan (lines 109-111 and 137-139). -/
def cfasTotalCells (m : EBSchedulingMethod) (numFfds nch ebi spa : ℕ) : ℕ :=
  cfasRequiredAdvSlots m numFfds nch ebi spa * spa * ebi * cfasChSpace m nch

/-- `total_adv_subslots_in_ms` for an (E)CFAS configuration: the number of
advertisement slots in the multi-slotframe times the subslots per slot. -/
def cfasTotalAdvSubslots (m : EBSchedulingMethod) (numFfds nch ebi spa : ℕ) : ℕ :=
  cfasRequiredAdvSlots m numFfds nch ebi spa * ebi * spa


/-- The intermediate driver state of one advertisement subslot (lines
359-372): the EB counters of the advertisers holding the subslot have been
incremented and, for ECV/ECH, the sensing pass has run. -/
def stepMidState (cfg : SimConfig) (orc : SimOracles) (t i j : ℕ)
    (st : DriverState) : DriverState :=
  let subslotIdx := i * cfg.spa + j
  let afterSensing :=
    if isEcvEch cfg.method then
      ecSensingPass cfg orc st.advertisers t subslotIdx (passInputOf st)
    else passInputOf st
  { st with
    ebTx := fun n =>
      if n ∈ st.advertisers ∧ st.alloc n subslotIdx ≠ none then st.ebTx n + 1
      else st.ebTx n
    sensing := afterSensing.sensing
    alloc := afterSensing.alloc
    numSensed := afterSensing.numSensed }

/-- The capture accumulator produced by the capture loop of one
advertisement subslot, started from the intermediate state. -/
def stepCapture (cfg : SimConfig) (orc : SimOracles) (t i j : ℕ)
    (st : DriverState) : CaptureAcc :=
  driverCapturePhase cfg orc t
    (st.msfIdx * cfg.numSlotsInMs + cfg.advSlotsPos.getD i 0) (i * cfg.spa + j)
    (stepMidState cfg orc t i j st)

/-- The busy and free sets computed when channel `c` of subslot `s` is
processed from pass state `ps`. -/
def stepBusy (orc : SimOracles) (adv : Finset ℕ) (t s c : ℕ) (ps : EcPassState) : Finset ℕ :=
  (ps.sensing (s, c)).filter
    (fun n => isANeighborTransmitting adv ps.alloc (orc.signal t) n s c = true)


/-! ## Theorems -/

/-- The failing disjunction of the constructor is exactly the negation of the
seven specification invariants. -/
theorem ttNotFail_iff (a : TimeslotAttrs) : ¬ ttInvariantFail a ↔ ttSpecInvariants a := by
  unfold ttInvariantFail ttSpecInvariants nsOf
  push_neg
  constructor
  · rintro ⟨h1, h2, h3, h4, h5, h6, h7, h8⟩
    have h1q : (1000 : ℚ) * a.txOffset = 1000 * a.ccaOffset + 1000 * a.cca + 1000 * a.rxTx := by
      exact_mod_cast h1
    have h2q : (1000 : ℚ) * a.txOffset = 1000 * a.rxOffset + 500 * a.rxWait := by
      exact_mod_cast h2
    have h3q : (1000 : ℚ) * a.rxAckDelay ≤ 1000 * a.txAckDelay := by exact_mod_cast h3
    have h4q : (1000 : ℚ) * a.txAckDelay < 1000 * a.rxAckDelay + 1000 * a.ackWait := by
      exact_mod_cast h4
    have h5q : (1000 : ℚ) * a.txOffset + 1000 * a.maxTx + 1000 * a.rxAckDelay +
        1000 * a.ackWait ≤ 1000 * a.timeslotLength := by exact_mod_cast h5
    have h6q : (1000 : ℚ) * a.txOffset + 1000 * a.maxTx + 1000 * a.txAckDelay +
        1000 * a.maxAck ≤ 1000 * a.timeslotLength := by exact_mod_cast h6
    have h7q : (1000 : ℚ) * a.rxOffset + 1000 * a.rxWait + 1000 * a.maxTx +
        1000 * a.txAckDelay + 1000 * a.maxAck ≤
        1000 * a.timeslotLength + 1000 * a.ccaOffset := by exact_mod_cast h7
    have h8q : (500 : ℚ) * a.rxWait ≤ 1000 * a.rxOffset + 1000 * a.timeslotLength -
        1000 * a.txOffset - 1000 * a.maxTx - 1000 * a.txAckDelay - 1000 * a.maxAck := by
      exact_mod_cast h8
    refine ⟨by linarith, by linarith, ⟨by linarith, by linarith⟩, by linarith,
      by linarith, by linarith, by linarith⟩
  · rintro ⟨h1, h2, ⟨h3, h4⟩, h5, h6, h7, h8⟩
    refine ⟨?_, ?_, ?_, ?_, ?_, ?_, ?_, ?_⟩
    · exact_mod_cast show (1000 : ℚ) * a.txOffset =
        1000 * a.ccaOffset + 1000 * a.cca + 1000 * a.rxTx by linarith
    · exact_mod_cast show (1000 : ℚ) * a.txOffset =
        1000 * a.rxOffset + 500 * a.rxWait by linarith
    · exact_mod_cast show (1000 : ℚ) * a.rxAckDelay ≤ 1000 * a.txAckDelay by linarith
    · exact_mod_cast show (1000 : ℚ) * a.txAckDelay <
        1000 * a.rxAckDelay + 1000 * a.ackWait by linarith
    · exact_mod_cast show (1000 : ℚ) * a.txOffset + 1000 * a.maxTx + 1000 * a.rxAckDelay +
        1000 * a.ackWait ≤ 1000 * a.timeslotLength by linarith
    · exact_mod_cast show (1000 : ℚ) * a.txOffset + 1000 * a.maxTx + 1000 * a.txAckDelay +
        1000 * a.maxAck ≤ 1000 * a.timeslotLength by linarith
    · exact_mod_cast show (1000 : ℚ) * a.rxOffset + 1000 * a.rxWait + 1000 * a.maxTx +
        1000 * a.txAckDelay + 1000 * a.maxAck ≤
        1000 * a.timeslotLength + 1000 * a.ccaOffset by linarith
    · exact_mod_cast show (500 : ℚ) * a.rxWait ≤ 1000 * a.rxOffset +
        1000 * a.timeslotLength - 1000 * a.txOffset - 1000 * a.maxTx -
        1000 * a.txAckDelay - 1000 * a.maxAck by linarith

/-- C9: constructing a TimeslotTemplate succeeds exactly when every one of
the twelve attributes lies in [0, 65535] and the seven timing invariants
hold; otherwise construction raises `NotValidTimeslotTemplateError`. -/
theorem claim_C9 (a : TimeslotAttrs) :
    mkTimeslotTemplate a = true ↔ ttRangeOk a ∧ ttSpecInvariants a := by
  unfold mkTimeslotTemplate
  rw [Bool.and_eq_true, decide_eq_true_iff, Bool.not_eq_true', decide_eq_false_iff_not]
  exact and_congr Iff.rfl (ttNotFail_iff a)

/-- C3, counterexample: the SAX hash of the anchor MAC 00-8c-fa-12-34-56
computed by the code (over the six 8-bit `netaddr` words of the EUI-48
address, each split by `divmod(word, 256)` into `(0, word)`) differs from the
hash obtained by reading the address as 16-bit words as the claim describes,
and the resulting advertisement cell differs as well (shown here for 16
channels and 101 advertisement subslots under MAC_BASED_AS). -/
theorem claim_C3_counterexample :
    sax anchorMac ≠ specSax16 anchorMac ∧
    mbasAllocPair 16 101 false anchorMac ≠
      (specSax16 anchorMac % (16 * 101) / 16,
        specSax16 anchorMac % (16 * 101) % 16) := by
  constructor
  · decide
  · decide

/-- The byte-level reading of the SAX fold: the word loop with the
`divmod(word, 256)` byte pairs is the plain byte fold over the flattened
byte list. -/
theorem sax_eq_byte_fold (ws : List ℕ) (z : ℕ) :
    (ws.flatMap (fun w => [w / 256, w % 256])).foldl saxByteUpd z =
      ws.foldl (fun h w => saxByteUpd (saxByteUpd h (w / 256)) (w % 256)) z := by
  induction ws generalizing z with
  | nil => rfl
  | cons w ws ih => simpa using ih (saxByteUpd (saxByteUpd z (w / 256)) (w % 256))

/-- C3, amended: the advertisement cell of a MAC-based allocation is
`sax(mac) mod (ch_space × total_adv_subslots)` decomposed vertically, where
`sax` iterates over the six 8-bit words of the EUI-48 MAC address and, for
each word, processes the byte pair `divmod(word, 256)` with
`h ← h XOR ((h<<5) + (h>>2) + byte)`, finally reduced to 16 bits; the hash of
the anchor MAC 00-8c-fa-12-34-56 is the fixed value 25198. -/
theorem claim_C3 :
    (∀ b3 b4 b5 nch total : ℕ, ∀ e : Bool,
      mbasAllocPair nch total e (macOctets b3 b4 b5) =
        ((sax (macOctets b3 b4 b5) % ((if e then nch - 1 else nch) * total)) /
            (if e then nch - 1 else nch),
          (sax (macOctets b3 b4 b5) % ((if e then nch - 1 else nch) * total)) %
            (if e then nch - 1 else nch) + (if e then 1 else 0))) ∧
    (∀ ws : List ℕ,
      sax ws = ((ws.flatMap (fun w => [w / 256, w % 256])).foldl saxByteUpd 0) % 65536) ∧
    sax anchorMac = 25198 ∧ sax anchorMac < 65536 := by
  refine ⟨?_, ?_, by decide, by decide⟩
  · intro b3 b4 b5 nch total e
    cases e <;> rfl
  · intro ws
    unfold sax
    rw [sax_eq_byte_fold]

/-- C1, counterexample: two `execute` runs on the identical three-node
Minimal6TiSCH configuration, differing only in the operating-system entropy
behind the unseeded `random.Random()` of line 187 (hence in the slotframe
drawn for the newly joined advertiser), return different network formation
times — there is no seed argument that could make them coincide. -/
theorem claim_C1_counterexample :
    (c1Run (fun _ => 0)).map (fun r => r.1) = some 2023912000 ∧
    (c1Run (fun _ => 1)).map (fun r => r.1) = some 1013912000 ∧
    (2023912000 : ℕ) ≠ 1013912000 := by
  refine ⟨by decide, by decide, by decide⟩

/-- C1, amended: a run is deterministic only up to the pseudo-random
streams.  The constructor exposes no seed: the generator state created at
line 187 is the same function of the operating-system entropy for every
choice of constructor arguments (so no argument controls it), and different
entropy yields different generator states for the same configuration. -/
theorem claim_C1 (a b : JPSArgs) (e : ℕ → ℕ) :
    jpsInitRandgen a e = jpsInitRandgen b e ∧
    ∃ e1 e2 : ℕ → ℕ, jpsInitRandgen a e1 ≠ jpsInitRandgen a e2 := by
  refine ⟨rfl, fun _ => 0, fun _ => 1, ?_⟩
  intro h
  have h0 := congrFun h 0
  simp [jpsInitRandgen] at h0

/-- `int(math.ceil(a / b))` as modelled by `cdiv` agrees with the Mathlib
ceiling division on naturals. -/
theorem cdiv_eq_ceilDiv (a b : ℕ) : cdiv a b = a ⌈/⌉ b := rfl

/-- The ceiling division is dominated by every sufficient multiple and
itself suffices. -/
theorem cdiv_spec (a b : ℕ) (hb : 0 < b) :
    a ≤ cdiv a b * b ∧ ∀ k, a ≤ k * b → cdiv a b ≤ k := by
  rw [cdiv_eq_ceilDiv]
  constructor
  · have h := le_smul_ceilDiv (b := a) hb
    simpa [smul_eq_mul, Nat.mul_comm] using h
  · intro k hk
    exact (ceilDiv_le_iff_le_mul hb).2 (by simpa [Nat.mul_comm] using hk)

/-- The required number of advertisement slots is the ceiling division of
the claim numerator by the claim denominator. -/
theorem cfasRequiredAdvSlots_eq (m : EBSchedulingMethod) (f nch ebi spa : ℕ) :
    cfasRequiredAdvSlots m f nch ebi spa =
      cdiv (cfasNumerator m f) (cfasDenominator m nch ebi spa) := by
  unfold cfasRequiredAdvSlots cfasNumerator cfasDenominator
  split <;> rfl

/-- Membership in the (E)CFAS advertisement-slot list. -/
theorem mem_advSlotsPosCfas (L ebi R p : ℕ) :
    p ∈ advSlotsPosCfas L ebi R ↔ ∃ k < ebi, ∃ j < R, p = k * L + j := by
  simp only [advSlotsPosCfas, List.mem_flatMap, List.mem_map, List.mem_range]
  constructor
  · rintro ⟨k, hk, j, hj, rfl⟩
    exact ⟨k, hk, j, hj, rfl⟩
  · rintro ⟨k, hk, j, hj, rfl⟩
    exact ⟨k, hk, j, hj, rfl⟩

/-- The advertisement slots of an (E)CFAS multi-slotframe are exactly the
first `R` slots of each slotframe. -/
theorem mem_advSlotsPosCfas_iff (L ebi R p : ℕ) (hRL : R ≤ L) :
    p ∈ advSlotsPosCfas L ebi R ↔ p < L * ebi ∧ p % L < R := by
  rcases Nat.eq_zero_or_pos L with hL | hL
  · subst hL
    rw [mem_advSlotsPosCfas]
    constructor
    · rintro ⟨k, _, j, hj, rfl⟩
      omega
    · rintro ⟨h, _⟩
      omega
  rw [mem_advSlotsPosCfas]
  constructor
  · rintro ⟨k, hk, j, hj, rfl⟩
    have hmod : (k * L + j) % L = j := by
      rw [Nat.add_comm, Nat.add_mul_mod_self_right]
      exact Nat.mod_eq_of_lt (lt_of_lt_of_le hj hRL)
    refine ⟨?_, by rw [hmod]; exact hj⟩
    calc k * L + j < k * L + L := by omega
      _ = (k + 1) * L := by ring
      _ ≤ ebi * L := Nat.mul_le_mul_right L hk
      _ = L * ebi := Nat.mul_comm _ _
  · rintro ⟨hp, hm⟩
    refine ⟨p / L, ?_, p % L, hm, ?_⟩
    · exact Nat.div_lt_of_lt_mul hp
    · rw [Nat.mul_comm]
      exact (Nat.div_add_mod p L).symm

/-- C4: for every (E)CFAS-family configuration, the simulator computes the
required number `R` of advertisement slots per slotframe as the ceiling of
`num_ffds / (num_channels · EBI · subslots_per_adv_slot)` (with numerator
`num_ffds − 1` and channel space `num_channels − 1` for the enhanced
variants); the slotframe-too-short configuration error is raised exactly
when `R` exceeds the slotframe length; and on success the advertisement
slots of the multi-slotframe are exactly the first `R` slots of each
slotframe.  (Construction may additionally reject non-injective node-id
maps, which claim C5 characterises.) -/
theorem claim_C4 (m : EBSchedulingMethod) (L nch ebi spa : ℕ) (ffds : List ℕ)
    (pancId : ℕ) (hfam : isCfasFamily m = true)
    (hench : isCfasBase m = false → 2 ≤ nch)
    (hnch : 1 ≤ nch) (hebi : 1 ≤ ebi) (hspa : 1 ≤ spa) :
    (cfasNumerator m ffds.length ≤
        cfasRequiredAdvSlots m ffds.length nch ebi spa * cfasDenominator m nch ebi spa ∧
      ∀ k, cfasNumerator m ffds.length ≤ k * cfasDenominator m nch ebi spa →
        cfasRequiredAdvSlots m ffds.length nch ebi spa ≤ k) ∧
    ((cfasInit m L nch ebi spa ffds pancId = .error .slotframeTooShort) ↔
      L < cfasRequiredAdvSlots m ffds.length nch ebi spa) ∧
    (∀ R2 pos, cfasInit m L nch ebi spa ffds pancId = .ok (R2, pos) →
      R2 = cfasRequiredAdvSlots m ffds.length nch ebi spa ∧
      ∀ p, p ∈ pos ↔ p < L * ebi ∧
        p % L < cfasRequiredAdvSlots m ffds.length nch ebi spa) := by
  have hD : 0 < cfasDenominator m nch ebi spa := by
    unfold cfasDenominator
    cases hb : isCfasBase m
    · have h2 : 2 ≤ nch := hench hb
      rw [if_neg (by simp)]
      exact Nat.mul_pos (Nat.mul_pos (by omega) hebi) hspa
    · rw [if_pos rfl]
      exact Nat.mul_pos (Nat.mul_pos hnch hebi) hspa
  refine ⟨?_, ?_, ?_⟩
  · rw [cfasRequiredAdvSlots_eq]
    exact cdiv_spec _ _ hD
  · unfold cfasInit
    constructor
    · intro h
      by_contra hL
      push_neg at hL
      rw [if_neg (by omega)] at h
      by_cases hids : cfasIdsOk m ffds pancId
          (cfasRequiredAdvSlots m ffds.length nch ebi spa) spa ebi nch = true
      · rw [if_pos hids] at h
        exact absurd h (by simp)
      · rw [if_neg hids] at h
        exact absurd h (by simp)
    · intro h
      rw [if_pos (by omega)]
  · intro R2 pos h
    unfold cfasInit at h
    by_cases hgt : cfasRequiredAdvSlots m ffds.length nch ebi spa > L
    · rw [if_pos hgt] at h
      exact absurd h (by simp)
    rw [if_neg hgt] at h
    push_neg at hgt
    by_cases hids : cfasIdsOk m ffds pancId
        (cfasRequiredAdvSlots m ffds.length nch ebi spa) spa ebi nch = true
    · rw [if_pos hids] at h
      simp only [Except.ok.injEq, Prod.mk.injEq] at h
      obtain ⟨h1, h2⟩ := h
      subst h1
      subst h2
      exact ⟨rfl, fun p => mem_advSlotsPosCfas_iff L ebi _ p hgt⟩
    · rw [if_neg hids] at h
      exact absurd h (by simp)

/-- The vertical cell decomposition is injective on distinct cell indices. -/
theorem cfasvAllocPair_inj (nch total : ℕ) (e : Bool) (a b : ℕ)
    (h : a % (total * (if e then nch - 1 else nch)) ≠
      b % (total * (if e then nch - 1 else nch))) :
    cfasvAllocPair nch total e a ≠ cfasvAllocPair nch total e b := by
  intro hEq
  unfold cfasvAllocPair at hEq
  apply h
  have h1 := congrArg Prod.fst hEq
  have h2 := congrArg Prod.snd hEq
  simp only at h1 h2
  have h2b : a % (total * (if e then nch - 1 else nch)) % (if e then nch - 1 else nch) =
      b % (total * (if e then nch - 1 else nch)) % (if e then nch - 1 else nch) := by omega
  have e1 := Nat.div_add_mod (a % (total * (if e then nch - 1 else nch)))
    (if e then nch - 1 else nch)
  have e2 := Nat.div_add_mod (b % (total * (if e then nch - 1 else nch)))
    (if e then nch - 1 else nch)
  rw [← e1, ← e2, h1, h2b]

/-- The horizontal cell decomposition is injective on distinct cell
indices. -/
theorem cfashAllocPair_inj (nch total : ℕ) (e : Bool) (a b : ℕ)
    (h : a % (total * (if e then nch - 1 else nch)) ≠
      b % (total * (if e then nch - 1 else nch))) :
    cfashAllocPair nch total e a ≠ cfashAllocPair nch total e b := by
  intro hEq
  unfold cfashAllocPair at hEq
  apply h
  have h1 := congrArg Prod.fst hEq
  have h2 := congrArg Prod.snd hEq
  simp only at h1 h2
  have h2b : a % (total * (if e then nch - 1 else nch)) / total =
      b % (total * (if e then nch - 1 else nch)) / total := by omega
  have e1 := Nat.div_add_mod (a % (total * (if e then nch - 1 else nch))) total
  have e2 := Nat.div_add_mod (b % (total * (if e then nch - 1 else nch))) total
  rw [← e1, ← e2, h1, h2b]

/-- C5: for CFASV/CFASH (over all FFDs) and ECFASV/ECFASH (over the FFDs
other than the PAN coordinator), once the slotframe-length check passes,
constructor validation rejects the configuration exactly when the map
`id mod total_adv_cells` is not injective over the relevant FFDs; and when
the map is injective, the allocated (subslot, channel-offset) cells of those
FFDs are pairwise distinct, with the enhanced variants never using channel
offset 0 (which the PAN coordinator keeps for itself). -/
theorem claim_C5 (m : EBSchedulingMethod) (L nch ebi spa : ℕ) (ffds : List ℕ)
    (pancId : ℕ)
    (hm : m = .CFASV ∨ m = .CFASH ∨ m = .ECFASV ∨ m = .ECFASH)
    (hRL : cfasRequiredAdvSlots m ffds.length nch ebi spa ≤ L) :
    ((∃ err, cfasInit m L nch ebi spa ffds pancId = .error err) ↔
      ¬ (cfasRelevantIds m ffds pancId).Pairwise (fun a b =>
        a % cfasTotalCells m ffds.length nch ebi spa ≠
        b % cfasTotalCells m ffds.length nch ebi spa)) ∧
    ((cfasRelevantIds m ffds pancId).Pairwise (fun a b =>
        a % cfasTotalCells m ffds.length nch ebi spa ≠
        b % cfasTotalCells m ffds.length nch ebi spa) →
      (cfasRelevantIds m ffds pancId).Pairwise (fun a b =>
        cfasAllocPair m nch (cfasTotalAdvSubslots m ffds.length nch ebi spa) a ≠
        cfasAllocPair m nch (cfasTotalAdvSubslots m ffds.length nch ebi spa) b)) ∧
    ((m = .ECFASV ∨ m = .ECFASH) → ∀ id2,
      (cfasAllocPair m nch (cfasTotalAdvSubslots m ffds.length nch ebi spa) id2).2 ≠ 0) := by
  have hMod : cfasTotalCells m ffds.length nch ebi spa =
      cfasTotalAdvSubslots m ffds.length nch ebi spa * cfasChSpace m nch := by
    unfold cfasTotalCells cfasTotalAdvSubslots
    ring
  have hok : ∀ ids M, cfasIdCheckOk ids M = true ↔
      ids.Pairwise (fun a b => a % M ≠ b % M) := by
    intro ids M
    unfold cfasIdCheckOk
    rw [decide_eq_true_iff]
    exact List.pairwise_map
  have hIff : cfasIdsOk m ffds pancId
      (cfasRequiredAdvSlots m ffds.length nch ebi spa) spa ebi nch = true ↔
      (cfasRelevantIds m ffds pancId).Pairwise (fun a b =>
        a % cfasTotalCells m ffds.length nch ebi spa ≠
        b % cfasTotalCells m ffds.length nch ebi spa) := by
    rcases hm with rfl | rfl | rfl | rfl <;>
      simp only [cfasIdsOk, cfasRelevantIds, cfasTotalCells, cfasChSpace,
        if_pos, if_neg, reduceIte] <;>
      exact hok _ _
  refine ⟨?_, ?_, ?_⟩
  · unfold cfasInit
    rw [if_neg (by omega)]
    constructor
    · rintro ⟨err, herr⟩
      intro hp
      rw [if_pos (hIff.2 hp)] at herr
      exact absurd herr (by simp)
    · intro hp
      refine ⟨.nonInjectiveIds, ?_⟩
      rw [if_neg (fun hc => hp (hIff.1 hc))]
  · intro hp
    refine hp.imp ?_
    intro a b hab
    rw [hMod] at hab
    rcases hm with rfl | rfl | rfl | rfl
    · exact cfasvAllocPair_inj nch _ false a b (by simpa [cfasChSpace] using hab)
    · exact cfashAllocPair_inj nch _ false a b (by simpa [cfasChSpace] using hab)
    · exact cfasvAllocPair_inj nch _ true a b (by simpa [cfasChSpace] using hab)
    · exact cfashAllocPair_inj nch _ true a b (by simpa [cfasChSpace] using hab)
  · rintro (rfl | rfl) id2
    · simp [cfasAllocPair, cfasvAllocPair]
    · simp [cfasAllocPair, cfashAllocPair]

/-- Entry `j` of one ssn block. -/
theorem ssnBlock_getElem (start spa j : ℕ) (hj : j < spa) :
    (ssnBlock start spa)[j]? = some (start + j) := by
  simp [ssnBlock, List.getElem?_range hj]

/-- Length of one ssn block. -/
theorem ssnBlock_length (start spa : ℕ) : (ssnBlock start spa).length = spa := by
  simp [ssnBlock]

/-- The tail of the ssn table, characterised: entry `(i, j)` equals the
number of earlier advertisement slots lying in the same slotframe as slot
`i` (counting the slots before the tail via `mPrev`), times the subslots per
slot, plus `j`. -/
theorem ssnTableAux_get (L spa : ℕ) (hspa : 1 ≤ spa) :
    ∀ (rest : List ℕ) (prevPos mPrev i j : ℕ),
      ((prevPos :: rest).map (· / L)).Pairwise (· ≤ ·) →
      i < rest.length → j < spa →
      (ssnTableAux L spa prevPos ((mPrev + 1) * spa - 1) rest)[i * spa + j]? =
        some (((if rest.getD i 0 / L = prevPos / L then mPrev + 1 else 0) +
          (rest.take i).countP (fun q => q / L = rest.getD i 0 / L)) * spa + j) := by
  intro rest
  induction rest with
  | nil =>
      intro prevPos mPrev i j _ hi _
      exact absurd hi (Nat.not_lt_zero _)
  | cons p rest2 ih =>
      intro prevPos mPrev i j hmono hi hj
      have hspaPos : 0 < (mPrev + 1) * spa := Nat.mul_pos (Nat.succ_pos _) hspa
      have hmono2 : ((p :: rest2).map (· / L)).Pairwise (· ≤ ·) := by
        simp only [List.map_cons, List.pairwise_cons] at hmono ⊢
        exact hmono.2
      have hprevle : ∀ q ∈ (p :: rest2).map (· / L), prevPos / L ≤ q := by
        simp only [List.map_cons, List.pairwise_cons] at hmono
        exact hmono.1
      by_cases hsame : prevPos / L = p / L
      · have hnext : ssnTableAux L spa prevPos ((mPrev + 1) * spa - 1) (p :: rest2) =
            ssnBlock ((mPrev + 1) * spa) spa ++
              ssnTableAux L spa p ((mPrev + 1) * spa + spa - 1) rest2 := by
          simp only [ssnTableAux]
          rw [if_pos hsame, Nat.sub_add_cancel hspaPos]
        rw [hnext]
        cases i with
        | zero =>
            simp only [Nat.zero_mul, Nat.zero_add]
            have hlen : j < (ssnBlock ((mPrev + 1) * spa) spa).length := by
              rw [ssnBlock_length]; omega
            rw [List.getElem?_append_left hlen, ssnBlock_getElem _ _ _ hj]
            simp only [List.getD_cons_zero, List.take_zero, List.countP_nil]
            rw [if_pos hsame.symm]
        | succ i2 =>
            have hidx : (i2 + 1) * spa + j = spa + (i2 * spa + j) := by ring
            rw [hidx]
            have hlen : (ssnBlock ((mPrev + 1) * spa) spa).length ≤ spa + (i2 * spa + j) := by
              rw [ssnBlock_length]; omega
            rw [List.getElem?_append_right hlen, ssnBlock_length]
            have hrw : spa + (i2 * spa + j) - spa = i2 * spa + j := by omega
            rw [hrw]
            have harg : (mPrev + 1) * spa + spa - 1 = ((mPrev + 1) + 1) * spa - 1 := by
              have : ((mPrev + 1) + 1) * spa = (mPrev + 1) * spa + spa := by ring
              omega
            rw [harg, ih p (mPrev + 1) i2 j hmono2 (by simpa using hi) hj]
            have hgetD : (p :: rest2).getD (i2 + 1) 0 = rest2.getD i2 0 := rfl
            rw [hgetD]
            have htake : ((p :: rest2).take (i2 + 1)).countP
                (fun q => q / L = rest2.getD i2 0 / L) =
                (if p / L = rest2.getD i2 0 / L then 1 else 0) +
                (rest2.take i2).countP (fun q => q / L = rest2.getD i2 0 / L) := by
              simp only [List.take_succ_cons, List.countP_cons, decide_eq_true_eq]
              exact Nat.add_comm _ _
            rw [htake]
            by_cases heq : rest2.getD i2 0 / L = p / L
            · rw [if_pos heq, if_pos (heq.trans hsame.symm), if_pos heq.symm]
              congr 1
              ring
            · rw [if_neg heq, if_neg (fun hc => heq (hc.trans hsame)),
                if_neg (fun hc => heq hc.symm)]
              congr 1
              ring
      · have hnext : ssnTableAux L spa prevPos ((mPrev + 1) * spa - 1) (p :: rest2) =
            ssnBlock 0 spa ++ ssnTableAux L spa p (spa - 1) rest2 := by
          simp only [ssnTableAux]
          rw [if_neg hsame]
          simp only [Nat.zero_add]
        rw [hnext]
        have hlt : prevPos / L < p / L := by
          have := hprevle (p / L) (by simp)
          omega
        cases i with
        | zero =>
            simp only [Nat.zero_mul, Nat.zero_add]
            have hlen : j < (ssnBlock 0 spa).length := by
              rw [ssnBlock_length]; omega
            rw [List.getElem?_append_left hlen, ssnBlock_getElem _ _ _ hj]
            simp only [List.getD_cons_zero, List.take_zero, List.countP_nil]
            rw [if_neg (fun hc => hsame hc.symm)]
            simp
        | succ i2 =>
            have hidx : (i2 + 1) * spa + j = spa + (i2 * spa + j) := by ring
            rw [hidx]
            have hlen : (ssnBlock 0 spa).length ≤ spa + (i2 * spa + j) := by
              rw [ssnBlock_length]; omega
            rw [List.getElem?_append_right hlen, ssnBlock_length]
            have hrw : spa + (i2 * spa + j) - spa = i2 * spa + j := by omega
            rw [hrw]
            have harg : spa - 1 = (0 + 1) * spa - 1 := by omega
            rw [harg, ih p 0 i2 j hmono2 (by simpa using hi) hj]
            have hgetD : (p :: rest2).getD (i2 + 1) 0 = rest2.getD i2 0 := rfl
            rw [hgetD]
            have hi2 : i2 < rest2.length := by simpa using hi
            have he2 : rest2.getD i2 0 ∈ rest2 := by
              rw [List.getD_eq_getElem?_getD, List.getElem?_eq_getElem hi2]
              exact List.getElem_mem hi2
            have hple : p / L ≤ rest2.getD i2 0 / L := by
              simp only [List.map_cons, List.pairwise_cons] at hmono2
              exact hmono2.1 _ (List.mem_map_of_mem _ he2)
            have hneprev : ¬ rest2.getD i2 0 / L = prevPos / L := by
              intro hc
              omega
            rw [if_neg hneprev]
            have htake : ((p :: rest2).take (i2 + 1)).countP
                (fun q => q / L = rest2.getD i2 0 / L) =
                (if p / L = rest2.getD i2 0 / L then 1 else 0) +
                (rest2.take i2).countP (fun q => q / L = rest2.getD i2 0 / L) := by
              simp only [List.take_succ_cons, List.countP_cons, decide_eq_true_eq]
              exact Nat.add_comm _ _
            rw [htake]
            by_cases heq : rest2.getD i2 0 / L = p / L
            · rw [if_pos heq, if_pos heq.symm]
              congr 1
              ring
            · rw [if_neg heq, if_neg (fun hc => heq hc.symm)]
              congr 1
              ring

/-- The ssn table of the constructor, characterised: the ssn of subslot `j`
of advertisement slot `i` is the number of earlier advertisement slots in
the same slotframe, times `spa`, plus `j`. -/
theorem ssnTable_get (L spa : ℕ) (hspa : 1 ≤ spa) (ps : List ℕ)
    (hmono : (ps.map (· / L)).Pairwise (· ≤ ·)) (i j : ℕ)
    (hi : i < ps.length) (hj : j < spa) :
    (ssnTable L spa ps)[i * spa + j]? =
      some ((ps.take i).countP (fun q => q / L = ps.getD i 0 / L) * spa + j) := by
  cases ps with
  | nil => exact absurd hi (Nat.not_lt_zero _)
  | cons p rest =>
      unfold ssnTable
      cases i with
      | zero =>
          simp only [Nat.zero_mul, Nat.zero_add]
          have hlen : j < (ssnBlock 0 spa).length := by
            rw [ssnBlock_length]; omega
          rw [List.getElem?_append_left hlen, ssnBlock_getElem _ _ _ hj]
          simp
      | succ i2 =>
          have hidx : (i2 + 1) * spa + j = spa + (i2 * spa + j) := by ring
          rw [hidx]
          have hlen : (ssnBlock 0 spa).length ≤ spa + (i2 * spa + j) := by
            rw [ssnBlock_length]; omega
          rw [List.getElem?_append_right hlen, ssnBlock_length]
          have hrw : spa + (i2 * spa + j) - spa = i2 * spa + j := by omega
          rw [hrw]
          have harg : spa - 1 = (0 + 1) * spa - 1 := by omega
          rw [harg, ssnTableAux_get L spa hspa rest p 0 i2 j hmono (by simpa using hi) hj]
          have hgetD : (p :: rest).getD (i2 + 1) 0 = rest.getD i2 0 := rfl
          rw [hgetD]
          have htake : ((p :: rest).take (i2 + 1)).countP
              (fun q => q / L = rest.getD i2 0 / L) =
              (if p / L = rest.getD i2 0 / L then 1 else 0) +
              (rest.take i2).countP (fun q => q / L = rest.getD i2 0 / L) := by
            simp only [List.take_succ_cons, List.countP_cons, decide_eq_true_eq]
            exact Nat.add_comm _ _
          rw [htake]
          by_cases heq : rest.getD i2 0 / L = p / L
          · rw [if_pos heq, if_pos heq.symm]
          · rw [if_neg heq, if_neg (fun hc => heq hc.symm)]

/-- C8: the physical channel of an EB transmission is
`(ASN + ssn + channel_offset) mod num_channels` when ATP is effective
(`subslots_per_adv_slot > 1`) and `(ASN + channel_offset) mod num_channels`
otherwise, where `ssn` is the 0-based position of the subslot among the
advertisement subslots of the slotframe containing it (resetting at each
slotframe boundary), provided the advertisement-slot positions have
monotone slotframe indices — which holds for every list the constructor
generates. -/
theorem claim_C8 (nch L spa : ℕ) (advPos : List ℕ) (asn i j choffset : ℕ)
    (hspa : 1 ≤ spa) (hi : i < advPos.length) (hj : j < spa)
    (hmono : (advPos.map (· / L)).Pairwise (· ≤ ·)) :
    subslotChannel nch L spa advPos asn i j choffset =
      if 1 < spa then
        (asn + (specSlotsBeforeInSameSlotframe L advPos i * spa + j) + choffset) % nch
      else (asn + choffset) % nch := by
  unfold subslotChannel driverSsnArg
  by_cases hs : spa > 1
  · rw [if_pos hs, if_pos hs]
    have hg := ssnTable_get L spa hspa advPos hmono i j hi hj
    have hgd : (ssnTable L spa advPos).getD (i * spa + j) 0 =
        (advPos.take i).countP (fun q => q / L = advPos.getD i 0 / L) * spa + j := by
      rw [List.getD_eq_getElem?_getD, hg]
      rfl
    rw [hgd]
    rfl
  · rw [if_neg hs, if_neg hs]
    rfl

/-- Unfolding one channel of the sensing-pass fold. -/
theorem ecPassStateAt_succ (cfg : SimConfig) (orc : SimOracles) (adv : Finset ℕ)
    (t s : ℕ) (ps0 : EcPassState) (k : ℕ) :
    ecPassStateAt cfg orc adv t s ps0 (k + 1) =
      ecChannelStep cfg orc adv t s (k + 1) (ecPassStateAt cfg orc adv t s ps0 k) := by
  unfold ecPassStateAt
  rw [List.range_succ, List.foldl_append]
  rfl

/-- The sensing field of one channel step: the processed cell is cleaned,
everything else is untouched. -/
theorem ecChannelStep_sensing (cfg : SimConfig) (orc : SimOracles) (adv : Finset ℕ)
    (t s c : ℕ) (ps : EcPassState) :
    (ecChannelStep cfg orc adv t s c ps).sensing =
      fun cell => if cell = (s, c) then (∅ : Finset ℕ) else ps.sensing cell := by
  unfold ecChannelStep
  split <;> rfl

/-- The sensing sets during the pass: the cells of the processed channels of
subslot `s` are empty, all other cells still hold their input sets. -/
theorem ecPassStateAt_sensing (cfg : SimConfig) (orc : SimOracles) (adv : Finset ℕ)
    (t s : ℕ) (ps0 : EcPassState) :
    ∀ k cell, (ecPassStateAt cfg orc adv t s ps0 k).sensing cell =
      if cell.1 = s ∧ 1 ≤ cell.2 ∧ cell.2 ≤ k then ∅ else ps0.sensing cell := by
  intro k
  induction k with
  | zero =>
      intro cell
      rw [if_neg (by omega)]
      rfl
  | succ k ih =>
      intro cell
      rw [ecPassStateAt_succ, ecChannelStep_sensing]
      simp only []
      obtain ⟨c1, c2⟩ := cell
      by_cases hc : (c1, c2) = (s, k + 1)
      · rw [if_pos hc]
        have h1 : c1 = s := congrArg Prod.fst hc
        have h2 : c2 = k + 1 := congrArg Prod.snd hc
        rw [if_pos ⟨h1, by omega, by omega⟩]
      · rw [if_neg hc, ih (c1, c2)]
        have hne : ¬(c1 = s ∧ c2 = k + 1) := fun hcc => hc (by rw [hcc.1, hcc.2])
        by_cases hcond : c1 = s ∧ 1 ≤ c2 ∧ c2 ≤ k
        · rw [if_pos hcond, if_pos ⟨hcond.1, hcond.2.1, by omega⟩]
        · have hng : ¬(c1 = s ∧ 1 ≤ c2 ∧ c2 ≤ k + 1) := by
            rintro ⟨ha, hb, hcc⟩
            by_cases hk : c2 = k + 1
            · exact hne ⟨ha, hk⟩
            · exact hcond ⟨ha, hb, by omega⟩
          rw [if_neg hcond, if_neg hng]

/-- The allocation field of one channel step, characterised: free nodes
claim the cell, busy nodes of the very last cell receive the random
fallback, everything else is untouched. -/
theorem ecChannelStep_alloc (cfg : SimConfig) (orc : SimOracles) (adv : Finset ℕ)
    (t s c : ℕ) (ps : EcPassState) :
    (ecChannelStep cfg orc adv t s c ps).alloc = fun n ss =>
      if s = cfg.totalAdvSubslots - 1 ∧ c = cfg.numChannels - 1 then
        if n ∈ stepBusy orc adv t s c ps ∧
            ss = randintDraw 0 (cfg.totalAdvSubslots - 1) (orc.fallbackSubslotDraw t n)
        then some (randintDraw 1 (cfg.numChannels - 1) (orc.fallbackOffsetDraw t n))
        else if n ∈ ps.sensing (s, c) \ stepBusy orc adv t s c ps ∧ ss = s then some c
        else ps.alloc n ss
      else if n ∈ ps.sensing (s, c) \ stepBusy orc adv t s c ps ∧ ss = s then some c
      else ps.alloc n ss := by
  unfold ecChannelStep stepBusy
  split <;> rfl

/-- One channel step leaves the allocation of any node outside the processed
cell unchanged. -/
theorem ecChannelStep_alloc_frame (cfg : SimConfig) (orc : SimOracles) (adv : Finset ℕ)
    (t s c : ℕ) (ps : EcPassState) (n : ℕ) (hn : n ∉ ps.sensing (s, c)) :
    ∀ ss, (ecChannelStep cfg orc adv t s c ps).alloc n ss = ps.alloc n ss := by
  intro ss
  rw [ecChannelStep_alloc]
  simp only []
  have hb : n ∉ stepBusy orc adv t s c ps :=
    fun hcon => hn (Finset.mem_filter.1 hcon).1
  have hf : ¬(n ∈ ps.sensing (s, c) \ stepBusy orc adv t s c ps ∧ ss = s) :=
    fun hcon => hn (Finset.mem_sdiff.1 hcon.1).1
  by_cases hfin : s = cfg.totalAdvSubslots - 1 ∧ c = cfg.numChannels - 1
  · rw [if_pos hfin, if_neg (fun hcon => hb hcon.1), if_neg hf]
  · rw [if_neg hfin, if_neg hf]

/-- One non-final channel step leaves the allocation of a busy node
unchanged (busy nodes move on instead of claiming the cell). -/
theorem ecChannelStep_alloc_busy (cfg : SimConfig) (orc : SimOracles) (adv : Finset ℕ)
    (t s c : ℕ) (ps : EcPassState) (n : ℕ)
    (hnf : ¬(s = cfg.totalAdvSubslots - 1 ∧ c = cfg.numChannels - 1))
    (hbusy : n ∈ stepBusy orc adv t s c ps) :
    ∀ ss, (ecChannelStep cfg orc adv t s c ps).alloc n ss = ps.alloc n ss := by
  intro ss
  rw [ecChannelStep_alloc]
  simp only []
  rw [if_neg hnf, if_neg (fun hcon => (Finset.mem_sdiff.1 hcon.1).2 hbusy)]

/-- The pending `sensing_nodes_new` entries of one channel step. -/
theorem ecChannelStep_newCells (cfg : SimConfig) (orc : SimOracles) (adv : Finset ℕ)
    (t s c : ℕ) (ps : EcPassState) :
    (ecChannelStep cfg orc adv t s c ps).newCells =
      if s = cfg.totalAdvSubslots - 1 ∧ c = cfg.numChannels - 1 then ps.newCells
      else ps.newCells ++
        [(ecNextCell cfg.method cfg.numChannels cfg.totalAdvSubslots s c,
          stepBusy orc adv t s c ps)] := by
  by_cases h : s = cfg.totalAdvSubslots - 1 ∧ c = cfg.numChannels - 1
  · rw [if_pos h]
    simp only [ecChannelStep, stepBusy, if_pos h]
  · rw [if_neg h]
    simp only [ecChannelStep, stepBusy, if_neg h]

/-- The busy set of `passBusySet` is the step-level busy set of the pass
state reached before the channel is processed. -/
theorem passBusySet_eq_stepBusy (cfg : SimConfig) (orc : SimOracles) (adv : Finset ℕ)
    (t s : ℕ) (ps0 : EcPassState) (k : ℕ) :
    passBusySet cfg orc adv t s ps0 (k + 1) =
      stepBusy orc adv t s (k + 1) (ecPassStateAt cfg orc adv t s ps0 k) := rfl

/-- The pending entries after processing channels `1, …, k`: one entry per
non-final processed cell, keyed by the next cell of the walk and holding the
busy set computed there. -/
theorem ecPassStateAt_newCells (cfg : SimConfig) (orc : SimOracles) (adv : Finset ℕ)
    (t s : ℕ) (ps0 : EcPassState) (hnc : ps0.newCells = []) :
    ∀ k, (ecPassStateAt cfg orc adv t s ps0 k).newCells =
      ((List.range k).map (· + 1)).filterMap (fun c =>
        if s = cfg.totalAdvSubslots - 1 ∧ c = cfg.numChannels - 1 then none
        else some (ecNextCell cfg.method cfg.numChannels cfg.totalAdvSubslots s c,
          passBusySet cfg orc adv t s ps0 c)) := by
  intro k
  induction k with
  | zero => simpa [ecPassStateAt] using hnc
  | succ k ih =>
      rw [ecPassStateAt_succ, ecChannelStep_newCells, List.range_succ, List.map_append,
        List.filterMap_append, ih]
      by_cases hf : s = cfg.totalAdvSubslots - 1 ∧ k + 1 = cfg.numChannels - 1
      · rw [if_pos hf]
        simp [hf]
      · rw [if_neg hf]
        rw [← passBusySet_eq_stepBusy]
        simp [hf]

/-- The busy set of a processed channel only holds nodes that were listening
on that cell when the pass began. -/
theorem passBusySet_subset (cfg : SimConfig) (orc : SimOracles) (adv : Finset ℕ)
    (t s : ℕ) (ps0 : EcPassState) (c : ℕ) (hc1 : 1 ≤ c) :
    passBusySet cfg orc adv t s ps0 c ⊆ ps0.sensing (s, c) := by
  unfold passBusySet
  intro n hn
  have hn2 := Finset.mem_filter.1 hn
  have hs := ecPassStateAt_sensing cfg orc adv t s ps0 (c - 1) (s, c)
  rw [if_neg (by simp only []; omega)] at hs
  rw [hs] at hn2
  exact hn2.1

/-- The allocations after the first `k` channels of the pass: any node not
listening on one of the processed cells keeps its allocation. -/
theorem ecPassStateAt_alloc_frame (cfg : SimConfig) (orc : SimOracles) (adv : Finset ℕ)
    (t s : ℕ) (ps0 : EcPassState) :
    ∀ k n, (∀ c, 1 ≤ c → c ≤ k → n ∉ ps0.sensing (s, c)) →
      ∀ ss, (ecPassStateAt cfg orc adv t s ps0 k).alloc n ss = ps0.alloc n ss := by
  intro k
  induction k with
  | zero => intro n _ ss; rfl
  | succ k ih =>
      intro n hn ss
      rw [ecPassStateAt_succ]
      have hstep : n ∉ (ecPassStateAt cfg orc adv t s ps0 k).sensing (s, k + 1) := by
        rw [ecPassStateAt_sensing, if_neg (by simp only []; omega)]
        exact hn (k + 1) (by omega) (by omega)
      rw [ecChannelStep_alloc_frame cfg orc adv t s (k + 1) _ n hstep ss]
      exact ih n (fun c h1 h2 => hn c h1 (by omega)) ss

/-- A busy node of a non-final cell keeps its allocation through the whole
channel loop, provided it listens on no other cell of the subslot. -/
theorem ecPassStateAt_alloc_busyMember (cfg : SimConfig) (orc : SimOracles)
    (adv : Finset ℕ) (t s : ℕ) (ps0 : EcPassState) :
    ∀ k n c, 1 ≤ c → c ≤ k →
      ¬(s = cfg.totalAdvSubslots - 1 ∧ c = cfg.numChannels - 1) →
      n ∈ passBusySet cfg orc adv t s ps0 c →
      (∀ c2, 1 ≤ c2 → c2 ≠ c → n ∉ ps0.sensing (s, c2)) →
      ∀ ss, (ecPassStateAt cfg orc adv t s ps0 k).alloc n ss = ps0.alloc n ss := by
  intro k
  induction k with
  | zero =>
      intro n c h1 h2
      omega
  | succ k ih =>
      intro n c h1 h2 hnf hbusy hother ss
      rw [ecPassStateAt_succ]
      by_cases hck : c = k + 1
      · have hbusy2 : n ∈ stepBusy orc adv t s (k + 1)
            (ecPassStateAt cfg orc adv t s ps0 k) := by
          rw [← passBusySet_eq_stepBusy, ← hck]
          exact hbusy
        rw [ecChannelStep_alloc_busy cfg orc adv t s (k + 1) _ n (hck ▸ hnf) hbusy2 ss]
        exact ecPassStateAt_alloc_frame cfg orc adv t s ps0 k n
          (fun c2 hc2a hc2b => hother c2 hc2a (by omega)) ss
      · have hstep : n ∉ (ecPassStateAt cfg orc adv t s ps0 k).sensing (s, k + 1) := by
          rw [ecPassStateAt_sensing, if_neg (by simp only []; omega)]
          exact hother (k + 1) (by omega) (fun hc => hck hc.symm)
        rw [ecChannelStep_alloc_frame cfg orc adv t s (k + 1) _ n hstep ss]
        exact ih n c h1 (by omega) hnf hbusy hother ss

/-- The flush leaves every cell that is not a recorded key untouched. -/
theorem flushNewCells_not_mem (new : List ((ℕ × ℕ) × Finset ℕ))
    (sn : ℕ × ℕ → Finset ℕ) (cell : ℕ × ℕ) (h : ∀ kv ∈ new, cell ≠ kv.1) :
    flushNewCells new sn cell = sn cell := by
  induction new generalizing sn with
  | nil => rfl
  | cons kv rest ih =>
      show flushNewCells rest _ cell = _
      rw [ih _ (fun kv2 h2 => h kv2 (List.mem_cons_of_mem kv h2))]
      exact if_neg (h kv (List.mem_cons_self kv rest))

/-- The flush writes each recorded entry when the keys are distinct. -/
theorem flushNewCells_mem (new : List ((ℕ × ℕ) × Finset ℕ)) :
    ∀ (sn : ℕ × ℕ → Finset ℕ) (k : ℕ × ℕ) (v : Finset ℕ), (k, v) ∈ new →
      (new.map Prod.fst).Nodup → flushNewCells new sn k = v := by
  induction new with
  | nil =>
      intro sn k v hmem _
      exact absurd hmem (List.not_mem_nil _)
  | cons kv rest ih =>
      intro sn k v hmem huniq
      rw [List.map_cons, List.nodup_cons] at huniq
      rcases List.mem_cons.1 hmem with heq | htail
      · subst heq
        show flushNewCells rest _ k = v
        rw [flushNewCells_not_mem rest _ k (fun kv2 h2 hkk => huniq.1 (by
          have hx : kv2.1 ∈ List.map Prod.fst rest := List.mem_map_of_mem Prod.fst h2
          rw [← hkk] at hx
          exact hx))]
        show (if k = (k, v).1 then (k, v).2 else sn k) = v
        rw [if_pos rfl]
      · exact ih _ k v htail huniq.2

/-- Distinct processed channels have distinct walk targets. -/
theorem ecNextCell_inj (m : EBSchedulingMethod) (hm : isEcvEch m = true)
    (nch total s c c2 : ℕ) (h1 : 1 ≤ c) (h2 : 1 ≤ c2) (hne : c ≠ c2) :
    ecNextCell m nch total s c ≠ ecNextCell m nch total s c2 := by
  cases m <;> simp_all [isEcvEch, ecNextCell] <;>
    split_ifs <;> simp_all [Prod.ext_iff] <;> omega

/-- The joiner cell (0, 1) is never a walk target. -/
theorem ecNextCell_ne_01 (m : EBSchedulingMethod) (hm : isEcvEch m = true)
    (nch total s c : ℕ) (h1 : 1 ≤ c) :
    ecNextCell m nch total s c ≠ (0, 1) := by
  cases m <;> simp_all [isEcvEch, ecNextCell] <;>
    split_ifs <;> simp_all [Prod.ext_iff] <;> omega

/-- Keys of a `filterMap` whose productive indices map to pairwise distinct
keys are distinct. -/
theorem nodup_keys_filterMap (l : List ℕ) (f : ℕ → Option ((ℕ × ℕ) × Finset ℕ))
    (hl : l.Nodup)
    (hinj : ∀ a ∈ l, ∀ b ∈ l, a ≠ b → ∀ e1 e2, f a = some e1 → f b = some e2 →
      e1.1 ≠ e2.1) :
    ((l.filterMap f).map Prod.fst).Nodup := by
  induction l with
  | nil => simp
  | cons a rest ih =>
      rw [List.nodup_cons] at hl
      rw [List.filterMap_cons]
      cases hfa : f a with
      | none =>
          exact ih hl.2 (fun x hx y hy hxy => hinj x (List.mem_cons_of_mem a hx)
            y (List.mem_cons_of_mem a hy) hxy)
      | some e =>
          rw [List.map_cons, List.nodup_cons]
          constructor
          · intro hmem
            obtain ⟨e2, he2, hk⟩ := List.mem_map.1 hmem
            obtain ⟨b, hb, hfb⟩ := List.mem_filterMap.1 he2
            exact hinj a (List.mem_cons_self a rest) b (List.mem_cons_of_mem a hb)
              (fun hab => hl.1 (hab ▸ hb)) e e2 hfa hfb hk.symm
          · exact ih hl.2 (fun x hx y hy hxy => hinj x (List.mem_cons_of_mem a hx)
              y (List.mem_cons_of_mem a hy) hxy)

/-- The allocation after the complete pass is the allocation after the
channel loop (the flush only touches the sensing sets). -/
theorem ecSensingPass_alloc (cfg : SimConfig) (orc : SimOracles) (adv : Finset ℕ)
    (t s : ℕ) (ps0 : EcPassState) :
    (ecSensingPass cfg orc adv t s ps0).alloc =
      (ecPassStateAt cfg orc adv t s ps0 (cfg.numChannels - 1)).alloc := rfl

/-- The sensing function after the complete pass is the flush of the pending
entries over the cleaned sensing sets. -/
theorem ecSensingPass_sensing_eq (cfg : SimConfig) (orc : SimOracles) (adv : Finset ℕ)
    (t s : ℕ) (ps0 : EcPassState) :
    (ecSensingPass cfg orc adv t s ps0).sensing =
      flushNewCells (ecPassStateAt cfg orc adv t s ps0 (cfg.numChannels - 1)).newCells
        (ecPassStateAt cfg orc adv t s ps0 (cfg.numChannels - 1)).sensing := rfl

/-- Membership of the pending entries of a full pass. -/
theorem mem_passNewCells_iff (cfg : SimConfig) (orc : SimOracles) (adv : Finset ℕ)
    (t s : ℕ) (ps0 : EcPassState) (hnc : ps0.newCells = [])
    (kv : (ℕ × ℕ) × Finset ℕ) :
    kv ∈ (ecPassStateAt cfg orc adv t s ps0 (cfg.numChannels - 1)).newCells ↔
      ∃ c, 1 ≤ c ∧ c ≤ cfg.numChannels - 1 ∧
        ¬(s = cfg.totalAdvSubslots - 1 ∧ c = cfg.numChannels - 1) ∧
        kv = (ecNextCell cfg.method cfg.numChannels cfg.totalAdvSubslots s c,
          passBusySet cfg orc adv t s ps0 c) := by
  rw [ecPassStateAt_newCells cfg orc adv t s ps0 hnc]
  rw [List.mem_filterMap]
  constructor
  · rintro ⟨c, hcmem, hfc⟩
    obtain ⟨k, hk, rfl⟩ := List.mem_map.1 hcmem
    rw [List.mem_range] at hk
    by_cases hf : s = cfg.totalAdvSubslots - 1 ∧ k + 1 = cfg.numChannels - 1
    · rw [if_pos hf] at hfc
      exact absurd hfc (by simp)
    · rw [if_neg hf] at hfc
      exact ⟨k + 1, by omega, by omega, hf, (Option.some.injEq _ _ ▸ hfc).symm⟩
  · rintro ⟨c, h1, h2, h3, rfl⟩
    refine ⟨c, ?_, ?_⟩
    · exact List.mem_map.2 ⟨c - 1, List.mem_range.2 (by omega), by omega⟩
    · rw [if_neg h3]

/-- The recorded keys of a full pass are pairwise distinct. -/
theorem passNewCells_keysNodup (cfg : SimConfig) (orc : SimOracles) (adv : Finset ℕ)
    (t s : ℕ) (ps0 : EcPassState) (hm : isEcvEch cfg.method = true)
    (hnc : ps0.newCells = []) :
    (((ecPassStateAt cfg orc adv t s ps0 (cfg.numChannels - 1)).newCells).map
      Prod.fst).Nodup := by
  rw [ecPassStateAt_newCells cfg orc adv t s ps0 hnc]
  apply nodup_keys_filterMap
  · exact (List.nodup_range _).map (fun a b h => by omega)
  · intro a ha b hb hab e1 e2 he1 he2
    obtain ⟨ka, hka, rfl⟩ := List.mem_map.1 ha
    obtain ⟨kb, hkb, rfl⟩ := List.mem_map.1 hb
    by_cases hfa : s = cfg.totalAdvSubslots - 1 ∧ ka + 1 = cfg.numChannels - 1
    · rw [if_pos hfa] at he1
      exact absurd he1 (by simp)
    by_cases hfb : s = cfg.totalAdvSubslots - 1 ∧ kb + 1 = cfg.numChannels - 1
    · rw [if_pos hfb] at he2
      exact absurd he2 (by simp)
    rw [if_neg hfa] at he1
    rw [if_neg hfb] at he2
    have h1 : e1 = (ecNextCell cfg.method cfg.numChannels cfg.totalAdvSubslots s (ka + 1),
        passBusySet cfg orc adv t s ps0 (ka + 1)) := (Option.some.inj he1).symm
    have h2 : e2 = (ecNextCell cfg.method cfg.numChannels cfg.totalAdvSubslots s (kb + 1),
        passBusySet cfg orc adv t s ps0 (kb + 1)) := (Option.some.inj he2).symm
    rw [h1, h2]
    exact ecNextCell_inj cfg.method hm cfg.numChannels cfg.totalAdvSubslots s
      (ka + 1) (kb + 1) (by omega) (by omega) hab

/-- After the pass, the walk target of a busy non-final cell holds exactly
the busy set of that cell. -/
theorem ecSensingPass_sensing_target (cfg : SimConfig) (orc : SimOracles)
    (adv : Finset ℕ) (t s : ℕ) (ps0 : EcPassState)
    (hm : isEcvEch cfg.method = true) (hnc : ps0.newCells = [])
    (c : ℕ) (hc1 : 1 ≤ c) (hc2 : c < cfg.numChannels)
    (hnf : ¬(s = cfg.totalAdvSubslots - 1 ∧ c = cfg.numChannels - 1)) :
    (ecSensingPass cfg orc adv t s ps0).sensing
        (ecNextCell cfg.method cfg.numChannels cfg.totalAdvSubslots s c) =
      passBusySet cfg orc adv t s ps0 c := by
  rw [ecSensingPass_sensing_eq]
  apply flushNewCells_mem
  · exact (mem_passNewCells_iff cfg orc adv t s ps0 hnc _).2
      ⟨c, hc1, by omega, hnf, rfl⟩
  · exact passNewCells_keysNodup cfg orc adv t s ps0 hm hnc

/-- After the pass, a cell that is no walk target is empty when it belongs
to the processed row and untouched otherwise. -/
theorem ecSensingPass_sensing_other (cfg : SimConfig) (orc : SimOracles)
    (adv : Finset ℕ) (t s : ℕ) (ps0 : EcPassState) (hnc : ps0.newCells = [])
    (cell : ℕ × ℕ)
    (hnk : ∀ c, 1 ≤ c → c ≤ cfg.numChannels - 1 →
      ¬(s = cfg.totalAdvSubslots - 1 ∧ c = cfg.numChannels - 1) →
      cell ≠ ecNextCell cfg.method cfg.numChannels cfg.totalAdvSubslots s c) :
    (ecSensingPass cfg orc adv t s ps0).sensing cell =
      if cell.1 = s ∧ 1 ≤ cell.2 ∧ cell.2 ≤ cfg.numChannels - 1 then ∅
      else ps0.sensing cell := by
  rw [ecSensingPass_sensing_eq]
  rw [flushNewCells_not_mem _ _ _ ?keys]
  · exact ecPassStateAt_sensing cfg orc adv t s ps0 (cfg.numChannels - 1) cell
  case keys =>
    intro kv hkv
    obtain ⟨c, h1, h2, h3, rfl⟩ := (mem_passNewCells_iff cfg orc adv t s ps0 hnc kv).1 hkv
    exact hnk c h1 h2 h3

/-- The fallback draws of `randint` stay in the requested range and every
value of the range is reachable. -/
theorem randintDraw_range (lo hi raw : ℕ) (h : lo ≤ hi) :
    lo ≤ randintDraw lo hi raw ∧ randintDraw lo hi raw ≤ hi := by
  unfold randintDraw
  have := Nat.mod_lt raw (show 0 < hi + 1 - lo by omega)
  omega

/-- Every value of a `randint` range is the image of some raw draw. -/
theorem randintDraw_surj (lo hi v : ℕ) (h1 : lo ≤ v) (h2 : v ≤ hi) :
    ∃ raw, randintDraw lo hi raw = v := by
  refine ⟨v - lo, ?_⟩
  unfold randintDraw
  rw [Nat.mod_eq_of_lt (by omega)]
  omega

/-- C6: under ECV/ECH, the busy nodes of a sensed cell `(s, c)` move to the
next cell of the walk — `(s, c+1)`, wrapping to `(s+1, 1)` at channel
`num_channels − 1`, for ECV, and `(s+1, c)`, wrapping to `(0, c+1)` at
subslot `total_adv_subslots − 1`, for ECH — and the busy nodes of the very
last cell receive a random allocation with subslot in
`[0, total_adv_subslots)` and channel offset in `[1, num_channels)`, every
such cell being reachable by some draw. -/
theorem claim_C6 (cfg : SimConfig) (orc : SimOracles) (adv : Finset ℕ)
    (t s : ℕ) (ps0 : EcPassState)
    (hm : isEcvEch cfg.method = true) (hnch : 2 ≤ cfg.numChannels)
    (htot : 1 ≤ cfg.totalAdvSubslots) (hnc : ps0.newCells = [])
    (c : ℕ) (hc1 : 1 ≤ c) (hc2 : c < cfg.numChannels) :
    (¬(s = cfg.totalAdvSubslots - 1 ∧ c = cfg.numChannels - 1) →
      (ecSensingPass cfg orc adv t s ps0).sensing
          (ecNextCell cfg.method cfg.numChannels cfg.totalAdvSubslots s c) =
        passBusySet cfg orc adv t s ps0 c) ∧
    (cfg.method = .ECV →
      ecNextCell cfg.method cfg.numChannels cfg.totalAdvSubslots s c =
        if c = cfg.numChannels - 1 then (s + 1, 1) else (s, c + 1)) ∧
    (cfg.method = .ECH →
      ecNextCell cfg.method cfg.numChannels cfg.totalAdvSubslots s c =
        if s = cfg.totalAdvSubslots - 1 then (0, c + 1) else (s + 1, c)) ∧
    (s = cfg.totalAdvSubslots - 1 → c = cfg.numChannels - 1 →
      ∀ n ∈ passBusySet cfg orc adv t s ps0 c,
        (ecSensingPass cfg orc adv t s ps0).alloc n
            (randintDraw 0 (cfg.totalAdvSubslots - 1) (orc.fallbackSubslotDraw t n)) =
          some (randintDraw 1 (cfg.numChannels - 1) (orc.fallbackOffsetDraw t n)) ∧
        randintDraw 0 (cfg.totalAdvSubslots - 1) (orc.fallbackSubslotDraw t n) <
          cfg.totalAdvSubslots ∧
        1 ≤ randintDraw 1 (cfg.numChannels - 1) (orc.fallbackOffsetDraw t n) ∧
        randintDraw 1 (cfg.numChannels - 1) (orc.fallbackOffsetDraw t n) <
          cfg.numChannels) ∧
    (∀ lo hi v, lo ≤ v → v ≤ hi → ∃ raw, randintDraw lo hi raw = v) := by
  refine ⟨?_, ?_, ?_, ?_, fun lo hi v h1 h2 => randintDraw_surj lo hi v h1 h2⟩
  · intro hnf
    exact ecSensingPass_sensing_target cfg orc adv t s ps0 hm hnc c hc1 hc2 hnf
  · intro hv
    rw [hv]
    rfl
  · intro hv
    rw [hv]
    rfl
  · intro hs hcLast n hn
    have hkey : cfg.numChannels - 1 = (cfg.numChannels - 2) + 1 := by omega
    refine ⟨?_, ?_, ?_, ?_⟩
    · rw [ecSensingPass_alloc, hkey, ecPassStateAt_succ, ecChannelStep_alloc]
      beta_reduce
      have hbusy2 : n ∈ stepBusy orc adv t s ((cfg.numChannels - 2) + 1)
          (ecPassStateAt cfg orc adv t s ps0 (cfg.numChannels - 2)) := by
        rw [← passBusySet_eq_stepBusy]
        have hc : (cfg.numChannels - 2) + 1 = c := by omega
        rw [hc]
        exact hn
      rw [if_pos ⟨by omega, by omega⟩, if_pos ⟨hbusy2, rfl⟩, hkey]
    · exact (randintDraw_range 0 (cfg.totalAdvSubslots - 1)
        (orc.fallbackSubslotDraw t n) (by omega)).2.trans_lt (by omega)
    · exact (randintDraw_range 1 (cfg.numChannels - 1)
        (orc.fallbackOffsetDraw t n) (by omega)).1
    · exact (randintDraw_range 1 (cfg.numChannels - 1)
        (orc.fallbackOffsetDraw t n) (by omega)).2.trans_lt (by omega)

/-- Witness for C6: in a 16-channel one-subslot ECV grid a node sensing cell
(0, 1) that hears the coordinator moves to cell (0, 2). -/
theorem claim_C6_witness :
    (ecSensingPass cfgSingle (orcThree (fun _ => 0)) {0} 0 0 psEcW).sensing
        (ecNextCell cfgSingle.method cfgSingle.numChannels
          cfgSingle.totalAdvSubslots 0 1) =
      passBusySet cfgSingle (orcThree (fun _ => 0)) {0} 0 0 psEcW 1 :=
  (claim_C6 cfgSingle (orcThree (fun _ => 0)) {0} 0 0 psEcW (by decide) (by decide)
    (by decide) rfl 1 (by decide) (by decide)).1 (by decide)

/-- The one subslot of the main loop, written through the intermediate state
and the capture accumulator. -/
theorem driverSubslotStep_eq (cfg : SimConfig) (orc : SimOracles) (t i j : ℕ)
    (st : DriverState) :
    driverSubslotStep cfg orc t i j st =
      { advertisers := st.advertisers ∪ (stepCapture cfg orc t i j st).newAdvertisers,
        joined := st.joined ∪ (stepCapture cfg orc t i j st).newJoined,
        unjoined := st.unjoined \ (stepCapture cfg orc t i j st).newJoined,
        ebTx := (stepCapture cfg orc t i j st).ebTx,
        alloc := (stepCapture cfg orc t i j st).alloc,
        syncAsn := (stepCapture cfg orc t i j st).syncAsn,
        sensing := (stepCapture cfg orc t i j st).sensing,
        numSensed := (stepMidState cfg orc t i j st).numSensed,
        msfIdx := st.msfIdx } := rfl

/-- The intermediate state changes neither the unjoined set nor the
advertiser set. -/
theorem stepMidState_unjoined (cfg : SimConfig) (orc : SimOracles) (t i j : ℕ)
    (st : DriverState) : (stepMidState cfg orc t i j st).unjoined = st.unjoined := rfl

/-- The sensing state of the intermediate state under ECV/ECH is the output
of the sensing pass on the subslot. -/
theorem stepMidState_sensing (cfg : SimConfig) (orc : SimOracles) (t i j : ℕ)
    (st : DriverState) (hm : isEcvEch cfg.method = true) :
    (stepMidState cfg orc t i j st).sensing =
      (ecSensingPass cfg orc st.advertisers t (i * cfg.spa + j) (passInputOf st)).sensing := by
  simp only [stepMidState, hm, if_true]

/-- The allocation of the intermediate state under ECV/ECH is the output of
the sensing pass on the subslot. -/
theorem stepMidState_alloc (cfg : SimConfig) (orc : SimOracles) (t i j : ℕ)
    (st : DriverState) (hm : isEcvEch cfg.method = true) :
    (stepMidState cfg orc t i j st).alloc =
      (ecSensingPass cfg orc st.advertisers t (i * cfg.spa + j) (passInputOf st)).alloc := by
  simp only [stepMidState, hm, if_true]

/-- Flushing entries whose recorded sets are all empty over an all-empty
sensing state keeps every set empty. -/
theorem flushNewCells_all_empty (new : List ((ℕ × ℕ) × Finset ℕ)) :
    ∀ (sn : ℕ × ℕ → Finset ℕ), (∀ kv ∈ new, kv.2 = ∅) → (∀ cell, sn cell = ∅) →
      ∀ cell, flushNewCells new sn cell = ∅ := by
  induction new with
  | nil => intro sn _ hsn cell; exact hsn cell
  | cons kv rest ih =>
      intro sn hv hsn cell
      show flushNewCells rest (fun c2 => if c2 = kv.1 then kv.2 else sn c2) cell = ∅
      refine ih _ (fun kv2 h2 => hv kv2 (List.mem_cons_of_mem kv h2)) ?_ cell
      intro c2
      by_cases hc : c2 = kv.1
      · rw [if_pos hc]
        exact hv kv (List.mem_cons_self kv rest)
      · rw [if_neg hc]
        exact hsn c2

/-- A sensing pass on an all-empty sensing state leaves every sensing set
empty and every allocation untouched. -/
theorem ecSensingPass_emptyInput (cfg : SimConfig) (orc : SimOracles)
    (adv : Finset ℕ) (t s : ℕ) (ps0 : EcPassState) (hnc : ps0.newCells = [])
    (hsn : ∀ cell, ps0.sensing cell = ∅) :
    (∀ cell, (ecSensingPass cfg orc adv t s ps0).sensing cell = ∅) ∧
    (∀ n ss, (ecSensingPass cfg orc adv t s ps0).alloc n ss = ps0.alloc n ss) := by
  constructor
  · intro cell
    rw [ecSensingPass_sensing_eq]
    refine flushNewCells_all_empty _ _ ?_ ?_ cell
    · intro kv hkv
      rw [ecPassStateAt_newCells cfg orc adv t s ps0 hnc] at hkv
      obtain ⟨c, hcmem, hfc⟩ := List.mem_filterMap.1 hkv
      by_cases hf : s = cfg.totalAdvSubslots - 1 ∧ c = cfg.numChannels - 1
      · rw [if_pos hf] at hfc
        exact absurd hfc (by simp)
      · rw [if_neg hf] at hfc
        rw [← Option.some.inj hfc]
        show passBusySet cfg orc adv t s ps0 c = ∅
        have hc1 : 1 ≤ c := by
          obtain ⟨c0, _, hcc⟩ := List.mem_map.1 hcmem
          omega
        have hsub := passBusySet_subset cfg orc adv t s ps0 c hc1
        rw [hsn (s, c)] at hsub
        exact Finset.subset_empty.1 hsub
    · intro c2
      rw [ecPassStateAt_sensing]
      by_cases hrow : c2.1 = s ∧ 1 ≤ c2.2 ∧ c2.2 ≤ cfg.numChannels - 1
      · rw [if_pos hrow]
      · rw [if_neg hrow]
        exact hsn c2
  · intro n ss
    rw [ecSensingPass_alloc]
    exact ecPassStateAt_alloc_frame cfg orc adv t s ps0 _ n
      (fun c _ _ => by rw [hsn (s, c)]; exact Finset.not_mem_empty n) ss

/-- With no unjoined node, the capture loop processes nobody and hands the
state back unchanged. -/
theorem driverCapturePhase_noUnjoined (cfg : SimConfig) (orc : SimOracles)
    (t asn subslotIdx : ℕ) (st : DriverState) (h : st.unjoined = ∅) :
    driverCapturePhase cfg orc t asn subslotIdx st =
      { newJoined := ∅, newAdvertisers := ∅, ebTx := st.ebTx, alloc := st.alloc,
        syncAsn := st.syncAsn, sensing := st.sensing } := by
  unfold driverCapturePhase
  rw [h]
  have hl : cfg.nodes.filter (fun n => decide (n ∈ (∅ : Finset ℕ))) = [] := by
    simp
  rw [hl]
  rfl

/-- When the step of one subslot empties the unjoined set and satisfies the
ECV/ECH drain test, the run returns at once with the formation record of
that subslot. -/
theorem runSim_converged (cfg : SimConfig) (orc : SimOracles) (f t i j : ℕ)
    (st : DriverState) (nft : Option ℕ)
    (h1 : (driverSubslotStep cfg orc t i j st).unjoined = ∅)
    (h2 : isEcvEch cfg.method = false ∨
      sensingAllEmptyB cfg (driverSubslotStep cfg orc t i j st) = true) :
    runSim cfg orc (f + 1) t i j st nft =
      some ((if (driverSubslotStep cfg orc t i j st).unjoined = ∅ then
          some (nft.getD (subslotEndNs cfg
            (st.msfIdx * cfg.numSlotsInMs + cfg.advSlotsPos.getD i 0) j))
        else nft).getD 0,
        st.msfIdx * cfg.numSlotsInMs + cfg.advSlotsPos.getD i 0,
        driverSubslotStep cfg orc t i j st) := by
  simp only [runSim]
  rw [if_pos ⟨h1, h2⟩]

/-- The energy accounting of every ECV/ECH run skips the PAN
coordinator. -/
theorem energySkipsPanc_of_ecvEch (m : EBSchedulingMethod)
    (hm : isEcvEch m = true) : energySkipsPanc m = true := by
  cases m <;> simp_all [isEcvEch, energySkipsPanc]

/-- C2, counterexample: on the one-node ECV group of `cfgSingle` (PAN
coordinator boot at time 0), `execute` enters the main-loop body, increments
the PAN coordinator's EB counter to 1, and returns the end of the first
advertisement subslot (3912000 ns) as the network formation time — not the
coordinator's boot time. -/
theorem claim_C2_counterexample :
    c2Run.map (fun r => r.1) = some 3912000 ∧
    (3912000 : ℕ) ≠ cfgSingle.slot0StartNs ∧
    c2Run.map (fun r => r.2.2.ebTx cfgSingle.pancId) = some 1 := by
  refine ⟨by decide, by decide, by decide⟩

/-- C2, amended: on a group holding only the PAN coordinator, under ECV/ECH
the main loop still runs exactly one advertisement subslot: the returned
network formation time is the end of the first advertisement subslot (boot
plus one subslot), the PAN coordinator's EB counter is incremented once
before convergence is declared, and the total energy is exactly 0 because
the energy accounting of the enhanced methods skips the PAN coordinator. -/
theorem claim_C2 (cfg : SimConfig) (orc : SimOracles) (fuel : ℕ)
    (hn : cfg.nodes = [cfg.pancId]) (hm : isEcvEch cfg.method = true)
    (htot : 1 ≤ cfg.totalAdvSubslots) (hfuel : 1 ≤ fuel) :
    runSim cfg orc fuel 0 0 0 (executeInit cfg) none =
      some (subslotEndNs cfg (cfg.advSlotsPos.getD 0 0) 0, cfg.advSlotsPos.getD 0 0,
        driverSubslotStep cfg orc 0 0 0 (executeInit cfg)) ∧
    (driverSubslotStep cfg orc 0 0 0 (executeInit cfg)).ebTx cfg.pancId = 1 ∧
    totalEnergyQ cfg (driverSubslotStep cfg orc 0 0 0 (executeInit cfg))
      (cfg.advSlotsPos.getD 0 0) = 0 := by
  obtain ⟨f, rfl⟩ : ∃ f, fuel = f + 1 := ⟨fuel - 1, by omega⟩
  have hU : (executeInit cfg).unjoined = ∅ := by
    show (cfg.nodes.filter (fun n => decide (n ≠ cfg.pancId))).toFinset = ∅
    rw [hn]
    simp
  have hcap : stepCapture cfg orc 0 0 0 (executeInit cfg) =
      { newJoined := ∅, newAdvertisers := ∅,
        ebTx := (stepMidState cfg orc 0 0 0 (executeInit cfg)).ebTx,
        alloc := (stepMidState cfg orc 0 0 0 (executeInit cfg)).alloc,
        syncAsn := (stepMidState cfg orc 0 0 0 (executeInit cfg)).syncAsn,
        sensing := (stepMidState cfg orc 0 0 0 (executeInit cfg)).sensing } := by
    unfold stepCapture
    exact driverCapturePhase_noUnjoined cfg orc 0 _ _ _ hU
  have hsen1 : ∀ cell,
      (driverSubslotStep cfg orc 0 0 0 (executeInit cfg)).sensing cell = ∅ := by
    intro cell
    rw [driverSubslotStep_eq]
    show (stepCapture cfg orc 0 0 0 (executeInit cfg)).sensing cell = ∅
    rw [hcap]
    show (stepMidState cfg orc 0 0 0 (executeInit cfg)).sensing cell = ∅
    rw [stepMidState_sensing cfg orc 0 0 0 (executeInit cfg) hm]
    exact (ecSensingPass_emptyInput cfg orc (executeInit cfg).advertisers 0
      (0 * cfg.spa + 0) (passInputOf (executeInit cfg)) rfl (fun _ => rfl)).1 cell
  have hunj1 : (driverSubslotStep cfg orc 0 0 0 (executeInit cfg)).unjoined = ∅ := by
    rw [driverSubslotStep_eq]
    show (executeInit cfg).unjoined \
      (stepCapture cfg orc 0 0 0 (executeInit cfg)).newJoined = ∅
    rw [hU, hcap]
    simp
  have hall : sensingAllEmptyB cfg
      (driverSubslotStep cfg orc 0 0 0 (executeInit cfg)) = true := by
    unfold sensingAllEmptyB
    rw [List.all_eq_true]
    intro s _
    rw [List.all_eq_true]
    intro k _
    exact decide_eq_true (hsen1 _)
  have hebtx : (driverSubslotStep cfg orc 0 0 0 (executeInit cfg)).ebTx
      cfg.pancId = 1 := by
    rw [driverSubslotStep_eq]
    show (stepCapture cfg orc 0 0 0 (executeInit cfg)).ebTx cfg.pancId = 1
    rw [hcap]
    show (if cfg.pancId ∈ (executeInit cfg).advertisers ∧
        (executeInit cfg).alloc cfg.pancId (0 * cfg.spa + 0) ≠ none
      then (executeInit cfg).ebTx cfg.pancId + 1
      else (executeInit cfg).ebTx cfg.pancId) = 1
    have hpc : (executeInit cfg).alloc cfg.pancId (0 * cfg.spa + 0) = some 0 := by
      show pancScheduling cfg cfg.pancId (0 * cfg.spa + 0) = some 0
      unfold pancScheduling
      rw [if_pos rfl]
      cases hmeth : cfg.method <;>
        first
          | (rw [hmeth] at hm; exact absurd hm (by decide))
          | (show (if 0 * cfg.spa + 0 < cfg.totalAdvSubslots then some 0 else none) =
              some 0
             rw [if_pos (by omega)])
    have hmem : cfg.pancId ∈ (executeInit cfg).advertisers :=
      Finset.mem_singleton_self _
    have hne : (executeInit cfg).alloc cfg.pancId (0 * cfg.spa + 0) ≠ none := by
      rw [hpc]
      simp
    rw [if_pos ⟨hmem, hne⟩]
    rfl
  have henergy : totalEnergyQ cfg (driverSubslotStep cfg orc 0 0 0 (executeInit cfg))
      (cfg.advSlotsPos.getD 0 0) = 0 := by
    unfold totalEnergyQ
    rw [hn]
    simp only [energySkipsPanc_of_ecvEch cfg.method hm]
    simp
  refine ⟨?_, hebtx, henergy⟩
  rw [runSim_converged cfg orc f 0 0 0 (executeInit cfg) none hunj1 (Or.inr hall)]
  rw [if_pos hunj1]
  have hasn : (executeInit cfg).msfIdx * cfg.numSlotsInMs + cfg.advSlotsPos.getD 0 0 =
      cfg.advSlotsPos.getD 0 0 := by
    show 0 * cfg.numSlotsInMs + cfg.advSlotsPos.getD 0 0 = cfg.advSlotsPos.getD 0 0
    omega
  rw [hasn]
  rfl

/-- Witness for C2 on the one-node group of `cfgSingle`. -/
theorem claim_C2_witness :
    runSim cfgSingle orcNone 1 0 0 0 (executeInit cfgSingle) none =
      some (subslotEndNs cfgSingle (cfgSingle.advSlotsPos.getD 0 0) 0,
        cfgSingle.advSlotsPos.getD 0 0,
        driverSubslotStep cfgSingle orcNone 0 0 0 (executeInit cfgSingle)) ∧
    (driverSubslotStep cfgSingle orcNone 0 0 0 (executeInit cfgSingle)).ebTx
      cfgSingle.pancId = 1 ∧
    totalEnergyQ cfgSingle (driverSubslotStep cfgSingle orcNone 0 0 0
      (executeInit cfgSingle)) (cfgSingle.advSlotsPos.getD 0 0) = 0 :=
  claim_C2 cfgSingle orcNone 1 rfl (by decide) (by decide) (by decide)

/-- Witness for C4 on a 33-FFD CFASV configuration. -/
theorem claim_C4_witness :
    (cfasNumerator .CFASV (List.range 33).length ≤
        cfasRequiredAdvSlots .CFASV (List.range 33).length 16 1 1 *
          cfasDenominator .CFASV 16 1 1 ∧
      ∀ k, cfasNumerator .CFASV (List.range 33).length ≤
          k * cfasDenominator .CFASV 16 1 1 →
        cfasRequiredAdvSlots .CFASV (List.range 33).length 16 1 1 ≤ k) ∧
    ((cfasInit .CFASV 101 16 1 1 (List.range 33) 0 = .error .slotframeTooShort) ↔
      101 < cfasRequiredAdvSlots .CFASV (List.range 33).length 16 1 1) ∧
    (∀ R2 pos, cfasInit .CFASV 101 16 1 1 (List.range 33) 0 = .ok (R2, pos) →
      R2 = cfasRequiredAdvSlots .CFASV (List.range 33).length 16 1 1 ∧
      ∀ p, p ∈ pos ↔ p < 101 * 1 ∧
        p % 101 < cfasRequiredAdvSlots .CFASV (List.range 33).length 16 1 1) :=
  claim_C4 .CFASV 101 16 1 1 (List.range 33) 0 (by decide) (by decide) (by decide)
    (by decide) (by decide)

/-- Witness for C5 on the same 33-FFD CFASV configuration. -/
theorem claim_C5_witness :
    ((∃ err, cfasInit .CFASV 101 16 1 1 (List.range 33) 0 = .error err) ↔
      ¬ (cfasRelevantIds .CFASV (List.range 33) 0).Pairwise (fun a b =>
        a % cfasTotalCells .CFASV (List.range 33).length 16 1 1 ≠
        b % cfasTotalCells .CFASV (List.range 33).length 16 1 1)) ∧
    ((cfasRelevantIds .CFASV (List.range 33) 0).Pairwise (fun a b =>
        a % cfasTotalCells .CFASV (List.range 33).length 16 1 1 ≠
        b % cfasTotalCells .CFASV (List.range 33).length 16 1 1) →
      (cfasRelevantIds .CFASV (List.range 33) 0).Pairwise (fun a b =>
        cfasAllocPair .CFASV 16
            (cfasTotalAdvSubslots .CFASV (List.range 33).length 16 1 1) a ≠
        cfasAllocPair .CFASV 16
            (cfasTotalAdvSubslots .CFASV (List.range 33).length 16 1 1) b)) ∧
    ((EBSchedulingMethod.CFASV = .ECFASV ∨ EBSchedulingMethod.CFASV = .ECFASH) →
      ∀ id2, (cfasAllocPair .CFASV 16
        (cfasTotalAdvSubslots .CFASV (List.range 33).length 16 1 1) id2).2 ≠ 0) :=
  claim_C5 .CFASV 101 16 1 1 (List.range 33) 0 (Or.inl rfl) (by decide)

/-- Witness for C8 on a two-subslot ATP configuration with three
advertisement slots per slotframe and two slotframes. -/
theorem claim_C8_witness :
    subslotChannel 16 101 2 (advSlotsPosCfas 101 2 3) 7 4 1 3 =
      if 1 < 2 then
        (7 + (specSlotsBeforeInSameSlotframe 101 (advSlotsPosCfas 101 2 3) 4 * 2 + 1)
          + 3) % 16
      else (7 + 3) % 16 :=
  claim_C8 16 101 2 (advSlotsPosCfas 101 2 3) 7 4 1 3 (by decide) (by decide)
    (by decide) (by decide)

/-- Processing one unjoined node leaves the per-node capture record of every
other node untouched. -/
theorem captureOne_preserve (cfg : SimConfig) (orc : SimOracles)
    (t asn subslotIdx : ℕ) (adv : Finset ℕ) (acc : CaptureAcc) (node m : ℕ)
    (hne : m ≠ node) :
    (captureOne cfg orc t asn subslotIdx adv acc node).ebTx m = acc.ebTx m ∧
    (m ∈ (captureOne cfg orc t asn subslotIdx adv acc node).newJoined ↔
      m ∈ acc.newJoined) ∧
    (m ∈ (captureOne cfg orc t asn subslotIdx adv acc node).newAdvertisers ↔
      m ∈ acc.newAdvertisers) := by
  simp only [captureOne]
  split_ifs <;> simp [Finset.mem_insert, hne]

/-- A fold of the capture loop over a list not holding a node leaves that
node's capture record untouched. -/
theorem captureFold_not_mem (cfg : SimConfig) (orc : SimOracles)
    (t asn subslotIdx : ℕ) (adv : Finset ℕ) (m : ℕ) :
    ∀ (l : List ℕ), m ∉ l → ∀ acc : CaptureAcc,
      ((l.foldl (captureOne cfg orc t asn subslotIdx adv) acc).ebTx m = acc.ebTx m ∧
      (m ∈ (l.foldl (captureOne cfg orc t asn subslotIdx adv) acc).newJoined ↔
        m ∈ acc.newJoined) ∧
      (m ∈ (l.foldl (captureOne cfg orc t asn subslotIdx adv) acc).newAdvertisers ↔
        m ∈ acc.newAdvertisers)) := by
  intro l
  induction l with
  | nil => intro _ acc; exact ⟨rfl, Iff.rfl, Iff.rfl⟩
  | cons a rest ih =>
      intro hm acc
      have hma : m ≠ a := fun h => hm (h ▸ List.mem_cons_self a rest)
      have hmr : m ∉ rest := fun h => hm (List.mem_cons_of_mem a h)
      have h1 := captureOne_preserve cfg orc t asn subslotIdx adv acc a m hma
      have h2 := ih hmr (captureOne cfg orc t asn subslotIdx adv acc a)
      exact ⟨h2.1.trans h1.1, h2.2.1.trans h1.2.1, h2.2.2.trans h1.2.2⟩

/-- The capture loop never touches the EB counter of an RFD. -/
theorem captureFold_rfd (cfg : SimConfig) (orc : SimOracles)
    (t asn subslotIdx : ℕ) (adv : Finset ℕ) (m : ℕ) (hf : cfg.isFfd m = false) :
    ∀ (l : List ℕ) (acc : CaptureAcc),
      (l.foldl (captureOne cfg orc t asn subslotIdx adv) acc).ebTx m =
        acc.ebTx m := by
  intro l
  induction l with
  | nil => intro acc; rfl
  | cons a rest ih =>
      intro acc
      refine (ih _).trans ?_
      by_cases hma : m = a
      · subst hma
        simp only [captureOne]
        split_ifs with h1 h2 h3 <;> first | rfl | simp [hf] at h2
      · exact (captureOne_preserve cfg orc t asn subslotIdx adv acc a m hma).1

/-- Processing a node that turns out newly joined either found it already
joined or captured it now: in the latter case, an FFD's EB counter is reset
and the node is promoted. -/
theorem captureOne_self (cfg : SimConfig) (orc : SimOracles)
    (t asn subslotIdx : ℕ) (adv : Finset ℕ) (acc : CaptureAcc) (m : ℕ)
    (h : m ∈ (captureOne cfg orc t asn subslotIdx adv acc m).newJoined) :
    m ∈ acc.newJoined ∨ (cfg.isFfd m = true →
      (captureOne cfg orc t asn subslotIdx adv acc m).ebTx m = 0 ∧
      m ∈ (captureOne cfg orc t asn subslotIdx adv acc m).newAdvertisers) := by
  simp only [captureOne] at h ⊢
  split_ifs at h ⊢ with h1 h2 h3
  · exact Or.inr (fun _ => ⟨by simp, Finset.mem_insert_self m _⟩)
  · exact Or.inr (fun _ => ⟨by simp, Finset.mem_insert_self m _⟩)
  · exact Or.inr (fun hff => absurd hff h2)
  · exact Or.inl h

/-- A node that the capture loop reports newly joined was either already in
the accumulator or was captured during the loop; a captured FFD ends the
loop with EB counter 0 and a promotion. -/
theorem captureFold_joined (cfg : SimConfig) (orc : SimOracles)
    (t asn subslotIdx : ℕ) (adv : Finset ℕ) (m : ℕ) :
    ∀ (l : List ℕ), l.Nodup → ∀ acc : CaptureAcc,
      m ∈ (l.foldl (captureOne cfg orc t asn subslotIdx adv) acc).newJoined →
      m ∈ acc.newJoined ∨ (cfg.isFfd m = true →
        (l.foldl (captureOne cfg orc t asn subslotIdx adv) acc).ebTx m = 0 ∧
        m ∈ (l.foldl (captureOne cfg orc t asn subslotIdx adv) acc).newAdvertisers) := by
  intro l
  induction l with
  | nil => intro _ acc h; exact Or.inl h
  | cons a rest ih =>
      intro hnd acc h
      rw [List.nodup_cons] at hnd
      by_cases hma : m = a
      · subst hma
        have hmr : m ∉ rest := hnd.1
        have hpres := captureFold_not_mem cfg orc t asn subslotIdx adv m rest hmr
          (captureOne cfg orc t asn subslotIdx adv acc m)
        have hacc1 := hpres.2.1.1 h
        rcases captureOne_self cfg orc t asn subslotIdx adv acc m hacc1 with hin | hcaptured
        · exact Or.inl hin
        · refine Or.inr (fun hff => ?_)
          have hc := hcaptured hff
          exact ⟨hpres.1.trans hc.1, hpres.2.2.2 hc.2⟩
      · have := ih hnd.2 (captureOne cfg orc t asn subslotIdx adv acc a) h
        rcases this with hin | hrest
        · exact Or.inl ((captureOne_preserve cfg orc t asn subslotIdx adv acc a m
            hma).2.1.1 hin)
        · exact Or.inr hrest

/-- C7: a node with no advertiser role at subslot entry transmits nothing in
that subslot — it is never a candidate EB source of the capture pass (the
candidates are drawn from the entry advertiser set, whatever the allocations
look like mid-loop), giving it an allocation changes no carrier-sense answer
of the subslot, and when it joins as an FFD during the subslot its EB
counter ends at 0 and it holds its advertiser role only for the following
subslots; an RFD's counter is untouched. -/
theorem claim_C7 (cfg : SimConfig) (orc : SimOracles) (t i j : ℕ)
    (st : DriverState) (n : ℕ) (hnd : cfg.nodes.Nodup)
    (hadv : n ∉ st.advertisers) (hun : n ∈ st.unjoined)
    (hjoin : n ∉ (driverSubslotStep cfg orc t i j st).unjoined) :
    (∀ (al : ℕ → ℕ → Option ℕ) (rx : ℕ → ℕ → Bool) (ssx m : ℕ),
      n ∉ captureCandidates st.advertisers al rx ssx m) ∧
    (∀ (al : ℕ → ℕ → Option ℕ) (p : ℕ × ℕ) (sig : ℕ → ℕ → Bool) (m sx cx : ℕ),
      isANeighborTransmitting st.advertisers (setAllocPair al n p) sig m sx cx =
        isANeighborTransmitting st.advertisers al sig m sx cx) ∧
    (cfg.isFfd n = true →
      (driverSubslotStep cfg orc t i j st).ebTx n = 0 ∧
      n ∈ (driverSubslotStep cfg orc t i j st).advertisers) ∧
    (cfg.isFfd n = false →
      (driverSubslotStep cfg orc t i j st).ebTx n = st.ebTx n) := by
  have hmemNJ : n ∈ (stepCapture cfg orc t i j st).newJoined := by
    rw [driverSubslotStep_eq] at hjoin
    have hj2 : n ∉ st.unjoined \ (stepCapture cfg orc t i j st).newJoined := hjoin
    rw [Finset.mem_sdiff] at hj2
    by_contra hcon
    exact hj2 ⟨hun, hcon⟩
  have hlnd : (cfg.nodes.filter
      (fun m => decide (m ∈ (stepMidState cfg orc t i j st).unjoined))).Nodup :=
    hnd.filter _
  refine ⟨?_, ?_, ?_, ?_⟩
  · intro al rx ssx m hc
    exact hadv (Finset.mem_filter.1 hc).1
  · intro al p sig m sx cx
    unfold isANeighborTransmitting
    rw [decide_eq_decide]
    constructor
    · rintro ⟨a, ha, hne2, hal, hsig⟩
      have han : a ≠ n := fun h => hadv (h ▸ ha)
      refine ⟨a, ha, hne2, ?_, hsig⟩
      show al a sx = some cx
      rw [show setAllocPair al n p a sx = al a sx from
        if_neg (fun hcc => han hcc.1)] at hal
      exact hal
    · rintro ⟨a, ha, hne2, hal, hsig⟩
      have han : a ≠ n := fun h => hadv (h ▸ ha)
      refine ⟨a, ha, hne2, ?_, hsig⟩
      show setAllocPair al n p a sx = some cx
      rw [show setAllocPair al n p a sx = al a sx from
        if_neg (fun hcc => han hcc.1)]
      exact hal
  · intro hff
    have hj := captureFold_joined cfg orc t
      (st.msfIdx * cfg.numSlotsInMs + cfg.advSlotsPos.getD i 0) (i * cfg.spa + j)
      (stepMidState cfg orc t i j st).advertisers n _ hlnd _ hmemNJ
    rcases hj with hin | hcap2
    · exact absurd hin (Finset.not_mem_empty n)
    · have hc := hcap2 hff
      constructor
      · rw [driverSubslotStep_eq]
        exact hc.1
      · rw [driverSubslotStep_eq]
        show n ∈ st.advertisers ∪ (stepCapture cfg orc t i j st).newAdvertisers
        exact Finset.mem_union_right _ hc.2
  · intro hrf
    rw [driverSubslotStep_eq]
    show (stepCapture cfg orc t i j st).ebTx n = st.ebTx n
    have hfold := captureFold_rfd cfg orc t
      (st.msfIdx * cfg.numSlotsInMs + cfg.advSlotsPos.getD i 0) (i * cfg.spa + j)
      (stepMidState cfg orc t i j st).advertisers n hrf
      (cfg.nodes.filter
        (fun m => decide (m ∈ (stepMidState cfg orc t i j st).unjoined)))
      { newJoined := ∅, newAdvertisers := ∅,
        ebTx := (stepMidState cfg orc t i j st).ebTx,
        alloc := (stepMidState cfg orc t i j st).alloc,
        syncAsn := (stepMidState cfg orc t i j st).syncAsn,
        sensing := (stepMidState cfg orc t i j st).sensing }
    refine hfold.trans ?_
    show (if n ∈ st.advertisers ∧ st.alloc n (i * cfg.spa + j) ≠ none
      then st.ebTx n + 1 else st.ebTx n) = st.ebTx n
    rw [if_neg (fun hcc => hadv hcc.1)]

/-- Witness for C7: in the three-node Minimal6TiSCH group, node 1 joins in
the very first subslot, ends it with EB counter 0 and is promoted to
advertiser only for the following subslots. -/
theorem claim_C7_witness :
    (driverSubslotStep cfgThree (orcThree (fun _ => 0)) 0 0 0
      (executeInit cfgThree)).ebTx 1 = 0 ∧
    1 ∈ (driverSubslotStep cfgThree (orcThree (fun _ => 0)) 0 0 0
      (executeInit cfgThree)).advertisers :=
  (claim_C7 cfgThree (orcThree (fun _ => 0)) 0 0 0 (executeInit cfgThree) 1
    (by decide) (by decide) (by decide) (by decide)).2.2.1 (by decide)

/-- The dynamic sensing methods are exactly ECV and ECH. -/
theorem ecvEch_cases (m : EBSchedulingMethod) (hm : isEcvEch m = true) :
    m = .ECV ∨ m = .ECH := by
  cases m <;> simp_all [isEcvEch]

/-- The walk of ECV, spelled out. -/
theorem ecNextCell_ecv (nch total s c : ℕ) :
    ecNextCell .ECV nch total s c =
      if c = nch - 1 then (s + 1, 1) else (s, c + 1) := rfl

/-- The walk of ECH, spelled out. -/
theorem ecNextCell_ech (nch total s c : ℕ) :
    ecNextCell .ECH nch total s c =
      if s = total - 1 then (0, c + 1) else (s + 1, c) := rfl

/-- The location constraint under ECV, spelled out. -/
theorem ecLocOk_iff_ecv (cfg : SimConfig) (hc : cfg.method = .ECV) (p : ℕ)
    (cell : ℕ × ℕ) :
    ecLocOk cfg p cell ↔ (cell.2 = 1 → cell.1 = p ∨ cell.1 = 0) := by
  unfold ecLocOk
  rw [hc]

/-- The location constraint under ECH, spelled out. -/
theorem ecLocOk_iff_ech (cfg : SimConfig) (hc : cfg.method = .ECH) (p : ℕ)
    (cell : ℕ × ℕ) :
    ecLocOk cfg p cell ↔ (cell.1 = p ∨ cell = (0, 1)) := by
  unfold ecLocOk
  rw [hc]

/-- The joiner cell (0, 1) is a legal location at every position. -/
theorem ecLocOk_01 (cfg : SimConfig) (p : ℕ) : ecLocOk cfg p (0, 1) := by
  unfold ecLocOk
  cases cfg.method
  all_goals first
    | exact fun _ => Or.inr rfl
    | exact Or.inr rfl

/-- The row condition of the pass on a literal cell. -/
theorem cellRowIff (a b s k : ℕ) :
    (a = s ∧ 1 ≤ b ∧ b ≤ k) ↔
      (((a, b) : ℕ × ℕ).1 = s ∧ 1 ≤ ((a, b) : ℕ × ℕ).2 ∧ ((a, b) : ℕ × ℕ).2 ≤ k) :=
  Iff.rfl

/-- A legal cell outside the processed row stays legal at every later
position. -/
theorem ecLocOk_of_ne (cfg : SimConfig) (s p : ℕ) (cell : ℕ × ℕ)
    (hm : isEcvEch cfg.method = true) (hne : cell.1 ≠ s)
    (hold : ecLocOk cfg s cell) : ecLocOk cfg p cell := by
  rcases ecvEch_cases cfg.method hm with hc0 | hc0
  · rw [ecLocOk_iff_ecv cfg hc0] at hold ⊢
    intro hone
    rcases hold hone with h | h
    · exact absurd h hne
    · exact Or.inr h
  · rw [ecLocOk_iff_ech cfg hc0] at hold ⊢
    rcases hold with h | h
    · exact absurd h hne
    · exact Or.inr h

/-- A non-final walk target is a cell of the grid and a legal location for
the next position. -/
theorem ecNextCell_range_loc (cfg : SimConfig) (s c : ℕ)
    (hm : isEcvEch cfg.method = true) (hnch : 2 ≤ cfg.numChannels)
    (htot : 1 ≤ cfg.totalAdvSubslots) (hs : s < cfg.totalAdvSubslots)
    (hc1 : 1 ≤ c) (hc2 : c ≤ cfg.numChannels - 1)
    (hnf : ¬(s = cfg.totalAdvSubslots - 1 ∧ c = cfg.numChannels - 1)) :
    cellInRange cfg (ecNextCell cfg.method cfg.numChannels cfg.totalAdvSubslots s c) ∧
    ecLocOk cfg ((s + 1) % cfg.totalAdvSubslots)
      (ecNextCell cfg.method cfg.numChannels cfg.totalAdvSubslots s c) := by
  rcases ecvEch_cases cfg.method hm with hc0 | hc0
  · rw [hc0, ecNextCell_ecv]
    by_cases hcc : c = cfg.numChannels - 1
    · rw [if_pos hcc]
      have hsl : s ≠ cfg.totalAdvSubslots - 1 := fun h => hnf ⟨h, hcc⟩
      have hslt : s + 1 < cfg.totalAdvSubslots := by omega
      constructor
      · show s + 1 < cfg.totalAdvSubslots ∧ 1 ≤ 1 ∧ 1 < cfg.numChannels
        omega
      · rw [ecLocOk_iff_ecv cfg hc0]
        intro _
        left
        show s + 1 = (s + 1) % cfg.totalAdvSubslots
        rw [Nat.mod_eq_of_lt hslt]
    · rw [if_neg hcc]
      constructor
      · show s < cfg.totalAdvSubslots ∧ 1 ≤ c + 1 ∧ c + 1 < cfg.numChannels
        omega
      · rw [ecLocOk_iff_ecv cfg hc0]
        intro hone
        have hone2 : c + 1 = 1 := hone
        omega
  · rw [hc0, ecNextCell_ech]
    by_cases hss : s = cfg.totalAdvSubslots - 1
    · rw [if_pos hss]
      have hcl : c ≠ cfg.numChannels - 1 := fun h => hnf ⟨hss, h⟩
      constructor
      · show (0 : ℕ) < cfg.totalAdvSubslots ∧ 1 ≤ c + 1 ∧ c + 1 < cfg.numChannels
        omega
      · rw [ecLocOk_iff_ech cfg hc0]
        left
        show (0 : ℕ) = (s + 1) % cfg.totalAdvSubslots
        have hfull : s + 1 = cfg.totalAdvSubslots := by omega
        rw [hfull, Nat.mod_self]
    · rw [if_neg hss]
      have hslt : s + 1 < cfg.totalAdvSubslots := by omega
      constructor
      · show s + 1 < cfg.totalAdvSubslots ∧ 1 ≤ c ∧ c < cfg.numChannels
        omega
      · rw [ecLocOk_iff_ech cfg hc0]
        left
        show s + 1 = (s + 1) % cfg.totalAdvSubslots
        rw [Nat.mod_eq_of_lt hslt]

/-- The sensing-state invariant is preserved by a full sensing pass: the
surviving sets sit in the next position's legal cells, stay pairwise
disjoint, keep only allocation-free nodes that are not unjoined, and
unjoined nodes stay allocation-free. -/
theorem ecSensingPass_inv (cfg : SimConfig) (orc : SimOracles) (adv : Finset ℕ)
    (t s : ℕ) (U : Finset ℕ) (ps0 : EcPassState)
    (hm : isEcvEch cfg.method = true) (hnch : 2 ≤ cfg.numChannels)
    (htot : 1 ≤ cfg.totalAdvSubslots) (hs : s < cfg.totalAdvSubslots)
    (hnc : ps0.newCells = [])
    (h1 : ∀ cell, (ps0.sensing cell).Nonempty → cellInRange cfg cell ∧ ecLocOk cfg s cell)
    (h2 : ∀ cell cell2, cell ≠ cell2 → Disjoint (ps0.sensing cell) (ps0.sensing cell2))
    (h3 : ∀ n cell, n ∈ ps0.sensing cell → (∀ ss, ps0.alloc n ss = none) ∧ n ∉ U)
    (h4 : ∀ n, n ∈ U → ∀ ss, ps0.alloc n ss = none) :
    (∀ cell, ((ecSensingPass cfg orc adv t s ps0).sensing cell).Nonempty →
      cellInRange cfg cell ∧ ecLocOk cfg ((s + 1) % cfg.totalAdvSubslots) cell) ∧
    (∀ cell cell2, cell ≠ cell2 →
      Disjoint ((ecSensingPass cfg orc adv t s ps0).sensing cell)
        ((ecSensingPass cfg orc adv t s ps0).sensing cell2)) ∧
    (∀ n cell, n ∈ (ecSensingPass cfg orc adv t s ps0).sensing cell →
      (∀ ss, (ecSensingPass cfg orc adv t s ps0).alloc n ss = none) ∧ n ∉ U) ∧
    (∀ n, n ∈ U → ∀ ss, (ecSensingPass cfg orc adv t s ps0).alloc n ss = none) := by
  have hchar : ∀ cell n, n ∈ (ecSensingPass cfg orc adv t s ps0).sensing cell →
      (∃ c, 1 ≤ c ∧ c ≤ cfg.numChannels - 1 ∧
        ¬(s = cfg.totalAdvSubslots - 1 ∧ c = cfg.numChannels - 1) ∧
        cell = ecNextCell cfg.method cfg.numChannels cfg.totalAdvSubslots s c ∧
        n ∈ passBusySet cfg orc adv t s ps0 c) ∨
      (cell.1 ≠ s ∧ n ∈ ps0.sensing cell) := by
    intro cell n hn
    by_cases htar : ∃ c, 1 ≤ c ∧ c ≤ cfg.numChannels - 1 ∧
        ¬(s = cfg.totalAdvSubslots - 1 ∧ c = cfg.numChannels - 1) ∧
        cell = ecNextCell cfg.method cfg.numChannels cfg.totalAdvSubslots s c
    · obtain ⟨c, hca, hcb, hnf, hcell⟩ := htar
      left
      refine ⟨c, hca, hcb, hnf, hcell, ?_⟩
      rw [hcell, ecSensingPass_sensing_target cfg orc adv t s ps0 hm hnc c hca
        (by omega) hnf] at hn
      exact hn
    · right
      have hnk : ∀ c, 1 ≤ c → c ≤ cfg.numChannels - 1 →
          ¬(s = cfg.totalAdvSubslots - 1 ∧ c = cfg.numChannels - 1) →
          cell ≠ ecNextCell cfg.method cfg.numChannels cfg.totalAdvSubslots s c :=
        fun c ha hb hcnd hcc => htar ⟨c, ha, hb, hcnd, hcc⟩
      rw [ecSensingPass_sensing_other cfg orc adv t s ps0 hnc cell hnk] at hn
      by_cases hrow : cell.1 = s ∧ 1 ≤ cell.2 ∧ cell.2 ≤ cfg.numChannels - 1
      · rw [if_pos hrow] at hn
        exact absurd hn (Finset.not_mem_empty n)
      · rw [if_neg hrow] at hn
        refine ⟨?_, hn⟩
        intro hceq
        have hr := h1 cell ⟨n, hn⟩
        have hr1 : 1 ≤ cell.2 := hr.1.2.1
        have hr2 : cell.2 < cfg.numChannels := hr.1.2.2
        exact hrow ⟨hceq, hr1, by omega⟩
  have hpairne : ∀ (a b c2 : ℕ), b ≠ c2 → ((a, b) : ℕ × ℕ) ≠ (a, c2) :=
    fun a b c2 hb h => hb (congrArg Prod.snd h)
  refine ⟨?_, ?_, ?_, ?_⟩
  · intro cell hne
    obtain ⟨n, hn⟩ := hne
    rcases hchar cell n hn with ⟨c, hca, hcb, hnf, hcell, _⟩ | ⟨hrow, hmem⟩
    · rw [hcell]
      exact ecNextCell_range_loc cfg s c hm hnch htot hs hca hcb hnf
    · have hr := h1 cell ⟨n, hmem⟩
      exact ⟨hr.1, ecLocOk_of_ne cfg s _ cell hm hrow hr.2⟩
  · intro cell cell2 hne12
    rw [Finset.disjoint_left]
    intro n hna hnb
    rcases hchar cell n hna with ⟨c, hca, hcb, hnf, hcell, hb⟩ | ⟨hrow, hmem⟩ <;>
      rcases hchar cell2 n hnb with ⟨c', hca', hcb', hnf', hcell', hb'⟩ |
        ⟨hrow', hmem'⟩
    · have hcc : c ≠ c' := fun h => hne12 (by rw [hcell, hcell', h])
      exact (Finset.disjoint_left.1 (h2 (s, c) (s, c') (hpairne s c c' hcc))
        (passBusySet_subset cfg orc adv t s ps0 c hca hb))
        (passBusySet_subset cfg orc adv t s ps0 c' hca' hb')
    · have hcellne : cell2 ≠ (s, c) := fun h => hrow' (by rw [h])
      exact (Finset.disjoint_left.1 (h2 (s, c) cell2 (fun h => hcellne h.symm))
        (passBusySet_subset cfg orc adv t s ps0 c hca hb)) hmem'
    · have hcellne : cell ≠ (s, c') := fun h => hrow (by rw [h])
      exact (Finset.disjoint_left.1 (h2 cell (s, c') hcellne) hmem)
        (passBusySet_subset cfg orc adv t s ps0 c' hca' hb')
    · exact (Finset.disjoint_left.1 (h2 cell cell2 hne12) hmem) hmem'
  · intro n cell hn
    rcases hchar cell n hn with ⟨c, hca, hcb, hnf, hcell, hb⟩ | ⟨hrow, hmem⟩
    · have hmem0 : n ∈ ps0.sensing (s, c) :=
        passBusySet_subset cfg orc adv t s ps0 c hca hb
      have h30 := h3 n (s, c) hmem0
      refine ⟨fun ss => ?_, h30.2⟩
      rw [ecSensingPass_alloc]
      rw [ecPassStateAt_alloc_busyMember cfg orc adv t s ps0 (cfg.numChannels - 1)
        n c hca hcb hnf hb
        (fun c2 hc2a hc2ne hmem2 =>
          (Finset.disjoint_left.1 (h2 (s, c) (s, c2) (hpairne s c c2
            (fun h => hc2ne h.symm))) hmem0) hmem2) ss]
      exact h30.1 ss
    · have h30 := h3 n cell hmem
      refine ⟨fun ss => ?_, h30.2⟩
      rw [ecSensingPass_alloc]
      rw [ecPassStateAt_alloc_frame cfg orc adv t s ps0 (cfg.numChannels - 1) n
        (fun c hca hcb hmem2 =>
          (Finset.disjoint_left.1 (h2 cell (s, c) (fun h => hrow (by rw [h])))
            hmem) hmem2) ss]
      exact h30.1 ss
  · intro n hU ss
    rw [ecSensingPass_alloc]
    rw [ecPassStateAt_alloc_frame cfg orc adv t s ps0 (cfg.numChannels - 1) n
      (fun c _ _ hmem2 => (h3 n (s, c) hmem2).2 hU) ss]
    exact h4 n hU ss

/-- From any state whose non-empty sensing sets sit in legal cells for the
upcoming subslot, the pass is flush-safe: every pending entry is written
over an empty set and the joiner cell (0, 1) is never a key. -/
theorem ecPassFlushSafe_of_inv (cfg : SimConfig) (orc : SimOracles)
    (adv : Finset ℕ) (t s : ℕ) (ps0 : EcPassState)
    (hm : isEcvEch cfg.method = true) (hnch : 2 ≤ cfg.numChannels)
    (htot : 1 ≤ cfg.totalAdvSubslots) (hs : s < cfg.totalAdvSubslots)
    (hnc : ps0.newCells = [])
    (h1 : ∀ cell, (ps0.sensing cell).Nonempty →
      cellInRange cfg cell ∧ ecLocOk cfg s cell) :
    ecPassFlushSafe cfg orc adv t s ps0 := by
  intro kv hkv
  obtain ⟨c, hc1, hc2, hnf, rfl⟩ :=
    (mem_passNewCells_iff cfg orc adv t s ps0 hnc kv).1 hkv
  constructor
  · show (ecPassStateAt cfg orc adv t s ps0 (cfg.numChannels - 1)).sensing
      (ecNextCell cfg.method cfg.numChannels cfg.totalAdvSubslots s c) = ∅
    rcases ecvEch_cases cfg.method hm with hc0 | hc0
    · rw [hc0, ecNextCell_ecv]
      by_cases hcc : c = cfg.numChannels - 1
      · rw [if_pos hcc]
        have hsl : s ≠ cfg.totalAdvSubslots - 1 := fun h => hnf ⟨h, hcc⟩
        rw [ecPassStateAt_sensing]
        rw [if_neg (fun hcon => by
          have := (cellRowIff (s + 1) 1 s (cfg.numChannels - 1)).2 hcon
          omega)]
        by_contra hne
        have hnee : (ps0.sensing (s + 1, 1)).Nonempty :=
          Finset.nonempty_iff_ne_empty.2 hne
        have hloc := (h1 _ hnee).2
        rw [ecLocOk_iff_ecv cfg hc0] at hloc
        rcases hloc rfl with h | h
        · have h2 : s + 1 = s := h
          omega
        · have h2 : s + 1 = 0 := h
          omega
      · rw [if_neg hcc]
        rw [ecPassStateAt_sensing]
        rw [if_pos ((cellRowIff s (c + 1) s (cfg.numChannels - 1)).1
          ⟨rfl, by omega, by omega⟩)]
    · rw [hc0, ecNextCell_ech]
      by_cases hss : s = cfg.totalAdvSubslots - 1
      · rw [if_pos hss]
        have hcl : c ≠ cfg.numChannels - 1 := fun h => hnf ⟨hss, h⟩
        rw [ecPassStateAt_sensing]
        by_cases h0 : (0 : ℕ) = s
        · rw [if_pos ((cellRowIff 0 (c + 1) s (cfg.numChannels - 1)).1
            ⟨h0, by omega, by omega⟩)]
        · rw [if_neg (fun hcon => by
            have := (cellRowIff 0 (c + 1) s (cfg.numChannels - 1)).2 hcon
            omega)]
          by_contra hne
          have hnee : (ps0.sensing (0, c + 1)).Nonempty :=
            Finset.nonempty_iff_ne_empty.2 hne
          have hloc := (h1 _ hnee).2
          rw [ecLocOk_iff_ech cfg hc0] at hloc
          rcases hloc with h | h
          · exact h0 h
          · have hcEq : c + 1 = 1 := congrArg Prod.snd h
            omega
      · rw [if_neg hss]
        rw [ecPassStateAt_sensing]
        rw [if_neg (fun hcon => by
          have := (cellRowIff (s + 1) c s (cfg.numChannels - 1)).2 hcon
          omega)]
        by_contra hne
        have hnee : (ps0.sensing (s + 1, c)).Nonempty :=
          Finset.nonempty_iff_ne_empty.2 hne
        have hloc := (h1 _ hnee).2
        rw [ecLocOk_iff_ech cfg hc0] at hloc
        rcases hloc with h | h
        · have h2 : s + 1 = s := h
          omega
        · have h2 : s + 1 = 0 := congrArg Prod.fst h
          omega
  · show ecNextCell cfg.method cfg.numChannels cfg.totalAdvSubslots s c ≠ (0, 1)
    exact ecNextCell_ne_01 cfg.method hm cfg.numChannels cfg.totalAdvSubslots s c hc1

/-- Under ECV/ECH no schedule is installed at join time: the node starts
sensing instead. -/
theorem allocNewFfd_ecvEch (cfg : SimConfig) (orc : SimOracles) (t node : ℕ)
    (al : ℕ → ℕ → Option ℕ) (hm : isEcvEch cfg.method = true) :
    allocNewFfd cfg orc t node al = al := by
  unfold allocNewFfd
  rcases ecvEch_cases cfg.method hm with hc0 | hc0
  · rw [hc0]
  · rw [hc0]

/-- Under ECV/ECH the capture of one node leaves the allocations
untouched. -/
theorem captureOne_alloc_ecvEch (cfg : SimConfig) (orc : SimOracles)
    (t asn subslotIdx : ℕ) (adv : Finset ℕ) (acc : CaptureAcc) (node : ℕ)
    (hm : isEcvEch cfg.method = true) :
    (captureOne cfg orc t asn subslotIdx adv acc node).alloc = acc.alloc := by
  simp only [captureOne]
  split_ifs with h1 h2
  · exact allocNewFfd_ecvEch cfg orc t node acc.alloc hm
  · rfl
  · rfl

/-- The capture of one node touches no sensing set other than the joiner
cell (0, 1). -/
theorem captureOne_sensing_ne (cfg : SimConfig) (orc : SimOracles)
    (t asn subslotIdx : ℕ) (adv : Finset ℕ) (acc : CaptureAcc) (node : ℕ)
    (cell : ℕ × ℕ) (hcell : cell ≠ (0, 1)) :
    (captureOne cfg orc t asn subslotIdx adv acc node).sensing cell =
      acc.sensing cell := by
  simp only [captureOne]
  split_ifs with h1 h2 h3
  · show (if cell = (0, 1) then insert node (acc.sensing cell)
      else acc.sensing cell) = acc.sensing cell
    rw [if_neg hcell]
  · rfl
  · rfl
  · rfl

/-- A member of the joiner cell after one capture was either already there
or is the captured node, then recorded as newly joined. -/
theorem captureOne_sensing01 (cfg : SimConfig) (orc : SimOracles)
    (t asn subslotIdx : ℕ) (adv : Finset ℕ) (acc : CaptureAcc) (node n : ℕ)
    (h : n ∈ (captureOne cfg orc t asn subslotIdx adv acc node).sensing (0, 1)) :
    n ∈ acc.sensing (0, 1) ∨
      (n = node ∧ n ∈ (captureOne cfg orc t asn subslotIdx adv acc node).newJoined) := by
  simp only [captureOne] at h ⊢
  split_ifs at h ⊢ with h1 h2 h3
  · have h' : n ∈ (if ((0, 1) : ℕ × ℕ) = (0, 1) then insert node (acc.sensing (0, 1))
        else acc.sensing (0, 1)) := h
    rw [if_pos rfl] at h'
    rcases Finset.mem_insert.1 h' with h'' | h''
    · refine Or.inr ⟨h'', ?_⟩
      show n ∈ insert node acc.newJoined
      rw [h'']
      exact Finset.mem_insert_self node _
    · exact Or.inl h''
  · exact Or.inl h
  · exact Or.inl h
  · exact Or.inl h

/-- The newly joined set only grows during the capture of one node. -/
theorem captureOne_newJoined_mono (cfg : SimConfig) (orc : SimOracles)
    (t asn subslotIdx : ℕ) (adv : Finset ℕ) (acc : CaptureAcc) (node : ℕ) :
    acc.newJoined ⊆ (captureOne cfg orc t asn subslotIdx adv acc node).newJoined := by
  simp only [captureOne]
  split_ifs with h1 h2 h3
  · exact Finset.subset_insert node acc.newJoined
  · exact Finset.subset_insert node acc.newJoined
  · exact Finset.subset_insert node acc.newJoined
  · exact Finset.Subset.refl _

/-- Under ECV/ECH the whole capture loop leaves the allocations
untouched. -/
theorem capFold_alloc (cfg : SimConfig) (orc : SimOracles)
    (t asn subslotIdx : ℕ) (adv : Finset ℕ) (hm : isEcvEch cfg.method = true) :
    ∀ (l : List ℕ) (acc : CaptureAcc),
      (l.foldl (captureOne cfg orc t asn subslotIdx adv) acc).alloc = acc.alloc := by
  intro l
  induction l with
  | nil => intro acc; rfl
  | cons a rest ih =>
      intro acc
      exact (ih _).trans (captureOne_alloc_ecvEch cfg orc t asn subslotIdx adv acc a hm)

/-- The capture loop touches no sensing set other than the joiner cell. -/
theorem capFold_sensing_ne (cfg : SimConfig) (orc : SimOracles)
    (t asn subslotIdx : ℕ) (adv : Finset ℕ) (cell : ℕ × ℕ) (hcell : cell ≠ (0, 1)) :
    ∀ (l : List ℕ) (acc : CaptureAcc),
      (l.foldl (captureOne cfg orc t asn subslotIdx adv) acc).sensing cell =
        acc.sensing cell := by
  intro l
  induction l with
  | nil => intro acc; rfl
  | cons a rest ih =>
      intro acc
      exact (ih _).trans
        (captureOne_sensing_ne cfg orc t asn subslotIdx adv acc a cell hcell)

/-- The newly joined set only grows during the capture loop. -/
theorem capFold_newJoined_mono (cfg : SimConfig) (orc : SimOracles)
    (t asn subslotIdx : ℕ) (adv : Finset ℕ) :
    ∀ (l : List ℕ) (acc : CaptureAcc),
      acc.newJoined ⊆ (l.foldl (captureOne cfg orc t asn subslotIdx adv) acc).newJoined := by
  intro l
  induction l with
  | nil => intro acc; exact Finset.Subset.refl _
  | cons a rest ih =>
      intro acc
      exact (captureOne_newJoined_mono cfg orc t asn subslotIdx adv acc a).trans (ih _)

/-- A member of the joiner cell after the capture loop was already there, or
is a node of the processed list that the loop recorded as newly joined. -/
theorem capFold_sensing01 (cfg : SimConfig) (orc : SimOracles)
    (t asn subslotIdx : ℕ) (adv : Finset ℕ) :
    ∀ (l : List ℕ) (acc : CaptureAcc) (n : ℕ),
      n ∈ (l.foldl (captureOne cfg orc t asn subslotIdx adv) acc).sensing (0, 1) →
      n ∈ acc.sensing (0, 1) ∨
        (n ∈ l ∧ n ∈ (l.foldl (captureOne cfg orc t asn subslotIdx adv) acc).newJoined) := by
  intro l
  induction l with
  | nil => intro acc n h; exact Or.inl h
  | cons a rest ih =>
      intro acc n h
      rcases ih (captureOne cfg orc t asn subslotIdx adv acc a) n h with h' | ⟨hl, hj⟩
      · rcases captureOne_sensing01 cfg orc t asn subslotIdx adv acc a n h' with
          h'' | ⟨hna, hj2⟩
        · exact Or.inl h''
        · refine Or.inr ⟨by rw [hna]; exact List.mem_cons_self a rest, ?_⟩
          exact capFold_newJoined_mono cfg orc t asn subslotIdx adv rest _ hj2
      · exact Or.inr ⟨List.mem_cons_of_mem a hl, hj⟩

/-- One subslot of the main loop preserves the ECV/ECH sensing-state
invariant, moving it to the next position of the multi-slotframe. -/
theorem driverSubslotStep_inv (cfg : SimConfig) (orc : SimOracles) (t i j : ℕ)
    (st : DriverState) (hm : isEcvEch cfg.method = true)
    (hnch : 2 ≤ cfg.numChannels) (htot : 1 ≤ cfg.totalAdvSubslots)
    (hs : i * cfg.spa + j < cfg.totalAdvSubslots)
    (hinv : EcInvariant cfg st (i * cfg.spa + j)) :
    EcInvariant cfg (driverSubslotStep cfg orc t i j st)
      ((i * cfg.spa + j + 1) % cfg.totalAdvSubslots) := by
  obtain ⟨h1, h2, h3, h4⟩ := hinv
  obtain ⟨m1, m2, m3, m4⟩ := ecSensingPass_inv cfg orc st.advertisers t
    (i * cfg.spa + j) st.unjoined (passInputOf st) hm hnch htot hs rfl h1 h2 h3 h4
  have hcapAlloc : (stepCapture cfg orc t i j st).alloc =
      (ecSensingPass cfg orc st.advertisers t (i * cfg.spa + j)
        (passInputOf st)).alloc := by
    unfold stepCapture driverCapturePhase
    rw [capFold_alloc cfg orc t _ _ _ hm]
    exact stepMidState_alloc cfg orc t i j st hm
  have hcapSenNe : ∀ cell, cell ≠ (0, 1) →
      (stepCapture cfg orc t i j st).sensing cell =
        (ecSensingPass cfg orc st.advertisers t (i * cfg.spa + j)
          (passInputOf st)).sensing cell := by
    intro cell hcell
    unfold stepCapture driverCapturePhase
    rw [capFold_sensing_ne cfg orc t _ _ _ cell hcell]
    show (stepMidState cfg orc t i j st).sensing cell = _
    rw [stepMidState_sensing cfg orc t i j st hm]
  have hcapSen01 : ∀ n, n ∈ (stepCapture cfg orc t i j st).sensing (0, 1) →
      n ∈ (ecSensingPass cfg orc st.advertisers t (i * cfg.spa + j)
        (passInputOf st)).sensing (0, 1) ∨
      (n ∈ st.unjoined ∧ n ∈ (stepCapture cfg orc t i j st).newJoined) := by
    intro n hn
    unfold stepCapture driverCapturePhase at hn ⊢
    rcases capFold_sensing01 cfg orc t _ _ _ _ _ n hn with h' | ⟨hl, hj⟩
    · left
      have h'' : n ∈ (stepMidState cfg orc t i j st).sensing (0, 1) := h'
      rw [stepMidState_sensing cfg orc t i j st hm] at h''
      exact h''
    · right
      refine ⟨?_, hj⟩
      have hl2 := List.mem_filter.1 hl
      exact of_decide_eq_true hl2.2
  rw [driverSubslotStep_eq]
  unfold EcInvariant
  refine ⟨?_, ?_, ?_, ?_⟩
  · intro cell hne
    have hne' : ((stepCapture cfg orc t i j st).sensing cell).Nonempty := hne
    by_cases hc01 : cell = (0, 1)
    · subst hc01
      refine ⟨?_, ecLocOk_01 cfg _⟩
      show (0 : ℕ) < cfg.totalAdvSubslots ∧ 1 ≤ 1 ∧ 1 < cfg.numChannels
      omega
    · rw [hcapSenNe cell hc01] at hne'
      exact m1 cell hne'
  · intro cell cell2 hne12
    rw [Finset.disjoint_left]
    intro n hna hnb
    have hna' : n ∈ (stepCapture cfg orc t i j st).sensing cell := hna
    have hnb' : n ∈ (stepCapture cfg orc t i j st).sensing cell2 := hnb
    by_cases hc1 : cell = (0, 1) <;> by_cases hc2 : cell2 = (0, 1)
    · exact hne12 (hc1.trans hc2.symm)
    · subst hc1
      rw [hcapSenNe cell2 hc2] at hnb'
      rcases hcapSen01 n hna' with hpm | ⟨hU, _⟩
      · exact (Finset.disjoint_left.1 (m2 (0, 1) cell2 hne12) hpm) hnb'
      · exact (m3 n cell2 hnb').2 hU
    · subst hc2
      rw [hcapSenNe cell hc1] at hna'
      rcases hcapSen01 n hnb' with hpm | ⟨hU, _⟩
      · exact (Finset.disjoint_left.1 (m2 cell (0, 1) hne12) hna') hpm
      · exact (m3 n cell hna').2 hU
    · rw [hcapSenNe cell hc1] at hna'
      rw [hcapSenNe cell2 hc2] at hnb'
      exact (Finset.disjoint_left.1 (m2 cell cell2 hne12) hna') hnb'
  · intro n cell hn
    have hn' : n ∈ (stepCapture cfg orc t i j st).sensing cell := hn
    by_cases hc01 : cell = (0, 1)
    · subst hc01
      rcases hcapSen01 n hn' with hpm | ⟨hU, hNJ⟩
      · have hm3 := m3 n (0, 1) hpm
        refine ⟨fun ss => ?_, fun hmem => ?_⟩
        · show (stepCapture cfg orc t i j st).alloc n ss = none
          rw [hcapAlloc]
          exact hm3.1 ss
        · have hmem2 : n ∈ st.unjoined \ (stepCapture cfg orc t i j st).newJoined :=
            hmem
          exact hm3.2 (Finset.mem_sdiff.1 hmem2).1
      · refine ⟨fun ss => ?_, fun hmem => ?_⟩
        · show (stepCapture cfg orc t i j st).alloc n ss = none
          rw [hcapAlloc]
          exact m4 n hU ss
        · have hmem2 : n ∈ st.unjoined \ (stepCapture cfg orc t i j st).newJoined :=
            hmem
          exact (Finset.mem_sdiff.1 hmem2).2 hNJ
    · rw [hcapSenNe cell hc01] at hn'
      have hm3 := m3 n cell hn'
      refine ⟨fun ss => ?_, fun hmem => ?_⟩
      · show (stepCapture cfg orc t i j st).alloc n ss = none
        rw [hcapAlloc]
        exact hm3.1 ss
      · have hmem2 : n ∈ st.unjoined \ (stepCapture cfg orc t i j st).newJoined :=
          hmem
        exact hm3.2 (Finset.mem_sdiff.1 hmem2).1
  · intro n hmem ss
    have hmem2 : n ∈ st.unjoined \ (stepCapture cfg orc t i j st).newJoined := hmem
    show (stepCapture cfg orc t i j st).alloc n ss = none
    rw [hcapAlloc]
    exact m4 n (Finset.mem_sdiff.1 hmem2).1 ss

/-- C10: along every ECV/ECH run of the main loop the sensing-state
invariant holds — every non-empty sensing set sits in a cell of the grid
that is legal for the upcoming subslot, the sensing sets are pairwise
disjoint, every sensing node is allocation-free (so a node leaves all
sensing sets from the subslot in which it receives an allocation) and is no
longer unjoined, unjoined nodes hold no allocation — the position stays
inside the multi-slotframe, and the upcoming pass is flush-safe: each
pending next-cell entry overwrites only an empty set and (0, 1) is never a
walk target. -/
theorem claim_C10 (cfg : SimConfig) (orc : SimOracles) (st : DriverState)
    (pos : ℕ) (hm : isEcvEch cfg.method = true) (hnch : 2 ≤ cfg.numChannels)
    (htot : 1 ≤ cfg.totalAdvSubslots) (hr : DriverReach cfg orc st pos) :
    EcInvariant cfg st pos ∧ pos < cfg.totalAdvSubslots ∧
    ∀ t, ecPassFlushSafe cfg orc st.advertisers t pos (passInputOf st) := by
  induction hr with
  | init =>
      have hinv : EcInvariant cfg (executeInit cfg) 0 := by
        unfold EcInvariant
        refine ⟨?_, ?_, ?_, ?_⟩
        · intro cell hne
          have hne2 : (∅ : Finset ℕ).Nonempty := hne
          simp at hne2
        · intro cell cell2 _
          show Disjoint (∅ : Finset ℕ) ∅
          simp
        · intro n cell hn
          exact absurd hn (Finset.not_mem_empty n)
        · intro n hmem ss
          have hmem2 : n ∈ (cfg.nodes.filter
              (fun k => decide (k ≠ cfg.pancId))).toFinset := hmem
          have hne := of_decide_eq_true
            (List.mem_filter.1 (List.mem_toFinset.1 hmem2)).2
          show pancScheduling cfg n ss = none
          unfold pancScheduling
          rw [if_neg hne]
      refine ⟨hinv, by omega, fun t => ?_⟩
      exact ecPassFlushSafe_of_inv cfg orc (executeInit cfg).advertisers t 0
        (passInputOf (executeInit cfg)) hm hnch htot (by omega) rfl hinv.1
  | step st2 s t i j hr2 hseq _hj _hi ih =>
      obtain ⟨hinv, hpos, _⟩ := ih
      subst hseq
      have hstep := driverSubslotStep_inv cfg orc t i j st2 hm hnch htot hpos hinv
      refine ⟨hstep, Nat.mod_lt _ (by omega), fun t2 => ?_⟩
      exact ecPassFlushSafe_of_inv cfg orc
        (driverSubslotStep cfg orc t i j st2).advertisers t2 _
        (passInputOf (driverSubslotStep cfg orc t i j st2)) hm hnch htot
        (Nat.mod_lt _ (by omega)) rfl hstep.1

/-- Witness for C10 at the initial state of the one-node ECV group. -/
theorem claim_C10_witness :
    EcInvariant cfgSingle (executeInit cfgSingle) 0 ∧
    0 < cfgSingle.totalAdvSubslots ∧
    ∀ t, ecPassFlushSafe cfgSingle orcNone (executeInit cfgSingle).advertisers t 0
      (passInputOf (executeInit cfgSingle)) :=
  claim_C10 cfgSingle orcNone (executeInit cfgSingle) 0 (by decide) (by decide)
    (by decide) DriverReach.init

end ATJS
